import Mathlib

/-!
# Service calendars of `gtfsparser` (`gtfs/service.go`)

A shallow embedding of the `Date` and `Service` types of `gtfs/service.go`
and of the operations defined on them, and of `hexToRGB` of `color_utils.go`,
followed by theorems about them.

## Modelling conventions

* Go's fixed-width integers are unbounded `Int`s; every conversion the source
  performs (`int8(..)`, `int16(..)`) is an explicit wrap-around (`toInt8`,
  `toInt16`).  `Date.InRange` says that the three fields of a `Date` fit the
  Go field types (`int8`, `int8`, `int16`).
* `time.Time`.  Every instant the source builds is 12:00:00 UTC of some day
  (`Date.GetTime`), and `AddDate` keeps the clock.  Such an instant is
  identified with its day number: the number of days since 0001-01-01 in the
  proleptic Gregorian calendar.  `time.Date`, `Time.Date`, `Time.Weekday`,
  `Time.AddDate`, `Time.Before` and `Time.After` follow the Go standard
  library: month overflow is carried into the year, the day of the month is
  added linearly, and years are split into 400/100/4/1-year cycles.  Go's
  internal epoch lies a multiple of 400 years before year 1, so the cycle
  decomposition is the same with year 1 as origin and floor division.
  The 64-bit second counter of `time.Time` is not modelled: day numbers are
  unbounded.  The model is exact as long as the counter does not overflow,
  which takes an offset of more than 10^14 days.
* `map[Date]bool` is an association list.  The keys of a Go map are pairwise
  distinct; statements proved for every list hold for those in particular, and
  every list used as an example has distinct keys.  A lookup reads the list.
* `range` over a map.  Go fixes no order and draws a new one for every `range`
  loop.  `GetFirstDefinedDate` and `GetLastDefinedDate` run one loop each, in
  the order of the list they are given.  A function that calls several of
  them (`Equals`, `GetFirstActiveDate`, `GetLastActiveDate`) takes a
  `RangeOrder`, which gives the order of each of its loops separately; a
  statement about every run quantifies over every `RangeOrder` that is
  `Fair`, that is, enumerates exactly the entries of the map.
* `*Service` is an address into a heap `Nat → Service`, so that the pointer
  comparison of `Equals` is distinct from equality of the field values.
* Loops whose termination is not evident take a fuel argument and return
  `none` when the fuel is exhausted.
-/

namespace Gtfs

/-! ## Machine integers -/

/-- Go conversion `int8(x)`: wrap into `-128 .. 127`. -/
def toInt8 (x : Int) : Int := (x + 128) % 256 - 128

/-- Go conversion `int16(x)`: wrap into `-32768 .. 32767`. -/
def toInt16 (x : Int) : Int := (x + 32768) % 65536 - 32768

/-! ## The part of Go's `time` package used by `service.go` -/

/-! An instant at 12:00:00 UTC is given by its day number, an `Int`: the number
of days since 0001-01-01.  The functions named `Time.*` act on day numbers. -/

/-- Go `isLeap`: `year%4 == 0 && (year%100 != 0 || year%400 == 0)`. -/
def isLeap (year : Int) : Bool :=
  decide (year % 4 = 0) && (decide (year % 100 ≠ 0) || decide (year % 400 = 0))

/-- Go table `daysBefore`: `daysBefore[m]` is the number of days in a non-leap
year before month `m + 1`. -/
def daysBefore (m : Int) : Int :=
  if m = 0 then 0
  else if m = 1 then 31
  else if m = 2 then 59
  else if m = 3 then 90
  else if m = 4 then 120
  else if m = 5 then 151
  else if m = 6 then 181
  else if m = 7 then 212
  else if m = 8 then 243
  else if m = 9 then 273
  else if m = 10 then 304
  else if m = 11 then 334
  else 365

/-- Go `daysSinceEpoch`, with year 1 as origin: the number of days from
0001-01-01 to January 1 of `year`, by 400-, 100-, 4- and 1-year cycles. -/
def daysSinceEpoch (year : Int) : Int :=
  let y := year - 1
  let n400 := y / 400
  let y1 := y - 400 * n400
  let n100 := y1 / 100
  let y2 := y1 - 100 * n100
  let n4 := y2 / 4
  let y3 := y2 - 4 * n4
  146097 * n400 + 36524 * n100 + 1461 * n4 + 365 * y3

/-- Go `time.Date(year, month, day, 12, 0, 0, 0, time.UTC)`: the month is
normalised into `1 .. 12` with the overflow carried into the year (`norm`),
then the days before the year, before the month and before the day are added.
Neither `month` nor `day` need be in range. -/
def timeDate (year month day : Int) : Int :=
  let m := month - 1
  let year1 := year + m / 12
  let m1 := m % 12
  daysSinceEpoch year1 + daysBefore m1
    + (if isLeap year1 && decide (m1 + 1 ≥ 3) then 1 else 0) + (day - 1)

/-- First half of Go `absDate`: the year of a day number and the zero-based
day within that year. -/
def absYear (abs : Int) : Int × Int :=
  let n400 := abs / 146097
  let d1 := abs - 146097 * n400
  let n100 := d1 / 36524
  let n100c := n100 - n100 / 4
  let d2 := d1 - 36524 * n100c
  let n4 := d2 / 1461
  let d3 := d2 - 1461 * n4
  let n1 := d3 / 365
  let n1c := n1 - n1 / 4
  (400 * n400 + 100 * n100c + 4 * n4 + n1c + 1, d3 - 365 * n1c)

/-- Second half of Go `absDate`: month (`1 .. 12`) and day of the month of the
zero-based day `yday` of a year that is (`leap`) or is not a leap year. -/
def monthDay (leap : Bool) (yday : Int) : Int × Int :=
  if leap && decide (yday = 31 + 29 - 1) then (2, 29)
  else
    let day := if leap && decide (yday > 31 + 29 - 1) then yday - 1 else yday
    let month := day / 31
    let e := daysBefore (month + 1)
    if day ≥ e then (month + 1 + 1, day - e + 1)
    else (month + 1, day - daysBefore month + 1)

/-- Go `Time.Year`. -/
def Time.Year (t : Int) : Int := (absYear t).1

/-- Go `Time.Month`. -/
def Time.Month (t : Int) : Int :=
  (monthDay (isLeap (absYear t).1) (absYear t).2).1

/-- Go `Time.Day`. -/
def Time.Day (t : Int) : Int :=
  (monthDay (isLeap (absYear t).1) (absYear t).2).2

/-- Go `Time.AddDate(years, months, days)` on a noon-UTC instant:
`Date(year+years, month+months, day+days, 12, 0, 0, 0, UTC)`. -/
def Time.AddDate (t : Int) (years months days : Int) : Int :=
  timeDate (Time.Year t + years) (Time.Month t + months) (Time.Day t + days)

/-- Go `Time.Weekday`, Sunday = 0 .. Saturday = 6.  0001-01-01 is a Monday. -/
def Time.Weekday (t : Int) : Fin 7 :=
  ⟨((t + 1) % 7).toNat, by omega⟩

/-- Go `Time.Before`. -/
def Time.Before (t u : Int) : Bool := decide (t < u)

/-- Go `Time.After`. -/
def Time.After (t u : Int) : Bool := decide (t > u)

/-! ## `Date` -/

/-- The `Date` struct: `Day int8`, `Month int8`, `Year int16`. -/
structure Date where
  Day : Int
  Month : Int
  Year : Int
deriving DecidableEq

/-- The fields fit their Go types. -/
def Date.InRange (d : Date) : Prop :=
  -128 ≤ d.Day ∧ d.Day ≤ 127 ∧ -128 ≤ d.Month ∧ d.Month ≤ 127 ∧
    -32768 ≤ d.Year ∧ d.Year ≤ 32767

instance (d : Date) : Decidable d.InRange := by
  unfold Date.InRange; infer_instance

/-- `Date.GetTime`: the instant at 12:00:00 UTC of the date. -/
def Date.GetTime (d : Date) : Int := timeDate d.Year d.Month d.Day

/-- `GetGtfsDateFromTime`. -/
def GetGtfsDateFromTime (t : Int) : Date :=
  ⟨toInt8 (Time.Day t), toInt8 (Time.Month t), toInt16 (Time.Year t)⟩

/-- `Date.GetOffsettedDate`. -/
def Date.GetOffsettedDate (d : Date) (offset : Int) : Date :=
  if (offset = 1 ∨ offset = -1) ∧ d.Day > 1 ∧ d.Day < 27 then
    { d with Day := toInt8 (d.Day + toInt8 offset) }
  else
    GetGtfsDateFromTime (Time.AddDate d.GetTime 0 0 offset)

/-! ## `Service` -/

/-- Go map read `m[d]` with the comma-ok result: `some v` when `d` is a key of
the map, `none` otherwise. -/
def mapGet (m : List (Date × Bool)) (d : Date) : Option Bool :=
  match m with
  | [] => none
  | e :: rest => if e.1 = d then some e.2 else mapGet rest d

/-- The `Service` struct.  `Daymap` is indexed by Go's `time.Weekday`;
`Exceptions` lists the entries of the map; the order in which a `range` loop
enumerates them is given apart, by a `RangeOrder`. -/
structure Service where
  Id : String
  Daymap : Fin 7 → Bool
  Start_date : Date
  End_date : Date
  Exceptions : List (Date × Bool)

/-- `Service.GetExceptionTypeOn`. -/
def Service.GetExceptionTypeOn (s : Service) (d : Date) : Int :=
  match mapGet s.Exceptions d with
  | some t => if t then 1 else 2
  | none => 0

/-- `Service.IsActiveOn`. -/
def Service.IsActiveOn (s : Service) (d : Date) : Bool :=
  let exType := s.GetExceptionTypeOn d
  if exType = 1 then true
  else if exType = 2 then false
  else
    let t := d.GetTime
    s.Daymap (Time.Weekday t) && !(Time.Before t s.Start_date.GetTime)
      && !(Time.After t s.End_date.GetTime)

/-- Loop body of `GetFirstDefinedDate`. -/
def firstStep (first : Date) (e : Date × Bool) : Date :=
  if decide (first.Year = 0) || Time.Before e.1.GetTime first.GetTime then e.1 else first

/-- Loop body of `GetLastDefinedDate`. -/
def lastStep (last : Date) (e : Date × Bool) : Date :=
  if decide (last.Year = 0) || Time.After e.1.GetTime last.GetTime then e.1 else last

/-- `Service.GetFirstDefinedDate`. -/
def Service.GetFirstDefinedDate (s : Service) : Date :=
  let first := s.Exceptions.foldl firstStep ⟨0, 0, 0⟩
  if decide (first.Year = 0)
      || (decide (s.Start_date.Year > 0) && Time.Before s.Start_date.GetTime first.GetTime) then
    s.Start_date
  else first

/-- `Service.GetLastDefinedDate`. -/
def Service.GetLastDefinedDate (s : Service) : Date :=
  let last := s.Exceptions.foldl lastStep ⟨0, 0, 0⟩
  if decide (last.Year = 0)
      || (decide (s.End_date.Year > 0) && Time.After s.End_date.GetTime last.GetTime) then
    s.End_date
  else last

/-- `Service.IsEmpty`. -/
def Service.IsEmpty (s : Service) : Bool :=
  s.Daymap 0 == false && s.Daymap 1 == false && s.Daymap 2 == false && s.Daymap 3 == false
    && s.Daymap 4 == false && s.Daymap 5 == false && s.Daymap 6 == false
    && s.Exceptions.length == 0

/-- The orders in which the `range` loops of one call enumerate a map:
`ord k m` lists the entries of the map `m` in the order of the `k`-th `range`
loop that the call runs. -/
abbrev RangeOrder : Type := Nat → List (Date × Bool) → List (Date × Bool)

/-- The service as the `k`-th `range` loop of a call enumerates it. -/
def Service.ranged (s : Service) (ord : RangeOrder) (k : Nat) : Service :=
  { s with Exceptions := ord k s.Exceptions }

/-- The `for` loop of `Service.Equals`, started at `d`: `some true` when the
loop runs to its end, `some false` when it returns early, `none` when `fuel`
iterations do not suffice. -/
def Service.equalsLoop (s b : Service) (endA : Date) : Nat → Date → Option Bool
  | 0, _ => none
  | fuel + 1, d =>
    if Time.After d.GetTime endA.GetTime then some true
    else if s.IsActiveOn d != b.IsActiveOn d then some false
    else Service.equalsLoop s b endA fuel (d.GetOffsettedDate 1)

/-- `Service.Equals` on the services at addresses `s` and `b` of `heap`.  Its
four calls of `GetFirstDefinedDate` and `GetLastDefinedDate` run the `range`
loops 0 to 3 of the call, each in its own order. -/
def Service.Equals (fuel : Nat) (ord : RangeOrder) (heap : Nat → Service) (s b : Nat) :
    Option Bool :=
  if s = b then some true
  else
    let startA := ((heap s).ranged ord 0).GetFirstDefinedDate
    let endB := ((heap b).ranged ord 1).GetLastDefinedDate
    if Time.After startA.GetTime endB.GetTime then some false
    else
      let startB := ((heap b).ranged ord 2).GetFirstDefinedDate
      let endA := ((heap s).ranged ord 3).GetLastDefinedDate
      if Time.After startB.GetTime endA.GetTime then some false
      else
        let endA := if Time.Before endA.GetTime endB.GetTime then endB else endA
        let startA := if Time.After startA.GetTime startB.GetTime then startB else startA
        Service.equalsLoop (heap s) (heap b) endA fuel startA

/-! ## Auxiliary notions used in the statements -/

/-- Number of days of a year. -/
def yearLen (year : Int) : Int := if isLeap year then 366 else 365

/-- Number of days of month `m` (`1 .. 12`) in a leap or non-leap year. -/
def daysIn (leap : Bool) (m : Int) : Int :=
  daysBefore m - daysBefore (m - 1) + (if leap && decide (m = 2) then 1 else 0)

/-- Zero-based day of the year of day `d` of month `m`. -/
def yearDay (leap : Bool) (m d : Int) : Int :=
  daysBefore (m - 1) + (if leap && decide (m ≥ 3) then 1 else 0) + (d - 1)

/-- A month number and a day number that exist in a (leap or non-leap) year. -/
def validMD (leap : Bool) (m d : Int) : Prop :=
  1 ≤ m ∧ m ≤ 12 ∧ 1 ≤ d ∧ d ≤ daysIn leap m

/-- The date exists in the proleptic Gregorian calendar: month `1 .. 12` and a
day that the month has in that year. -/
def Date.IsCalendarDate (d : Date) : Prop := validMD (isLeap d.Year) d.Month d.Day

instance (d : Date) : Decidable d.IsCalendarDate := by
  unfold Date.IsCalendarDate validMD; infer_instance

/-- A calendar date whose fields fit the Go field types. -/
def Date.Valid (d : Date) : Prop := d.IsCalendarDate ∧ -32768 ≤ d.Year ∧ d.Year ≤ 32767

instance (d : Date) : Decidable d.Valid := by
  unfold Date.Valid; infer_instance

/-- The latest date with a year that fits `int16`. -/
def maxDate : Date := ⟨31, 12, 32767⟩

/-- The earliest date with a year that fits `int16`. -/
def minDate : Date := ⟨1, 1, -32768⟩

/-- Every `range` loop enumerates exactly the entries of the map. -/
def RangeOrder.Fair (ord : RangeOrder) : Prop :=
  ∀ (k : Nat) (m : List (Date × Bool)), (ord k m).Perm m

/-- Every `range` loop enumerates the map in the order of the list. -/
def storedOrder : RangeOrder := fun _ m => m

/-- Every `range` loop enumerates the map in the reverse order of the list. -/
def reverseOrder : RangeOrder := fun _ m => m.reverse

/-- Start of the window a call of `Equals` scans: the earlier of the two first
defined dates of the call (that of `s` when both fall on the same day). -/
def Service.windowStart (ord : RangeOrder) (s b : Service) : Date :=
  if Time.After (s.ranged ord 0).GetFirstDefinedDate.GetTime
      (b.ranged ord 2).GetFirstDefinedDate.GetTime then
    (b.ranged ord 2).GetFirstDefinedDate
  else (s.ranged ord 0).GetFirstDefinedDate

/-- End of the window a call of `Equals` scans: the later of the two last
defined dates of the call (that of `s` when both fall on the same day). -/
def Service.windowEnd (ord : RangeOrder) (s b : Service) : Date :=
  if Time.Before (s.ranged ord 3).GetLastDefinedDate.GetTime
      (b.ranged ord 1).GetLastDefinedDate.GetTime then
    (b.ranged ord 1).GetLastDefinedDate
  else (s.ranged ord 3).GetLastDefinedDate

/-- The exception keys have a nonzero year and fall on pairwise different
days, as distinct valid calendar dates with a set year do. -/
def Service.KeysDistinct (s : Service) : Prop :=
  (∀ e ∈ s.Exceptions, e.1.Year ≠ 0) ∧
    ∀ e ∈ s.Exceptions, ∀ f ∈ s.Exceptions, e.1.GetTime = f.1.GetTime → e.1 = f.1

instance (s : Service) : Decidable s.KeysDistinct := by
  unfold Service.KeysDistinct; infer_instance

/-- The fields of the service's dates fit their Go types. -/
def Service.InRange (s : Service) : Prop :=
  s.Start_date.InRange ∧ s.End_date.InRange ∧ ∀ e ∈ s.Exceptions, e.1.InRange

/-- A service as it arises from GTFS data: every exception date is a valid
calendar date with a nonzero year, and either `Start_date` and `End_date` are
valid calendar dates with a positive year, or both are unset (year 0), the
`Daymap` is all false and there is at least one exception. -/
def Service.WellFormed (s : Service) : Prop :=
  (∀ e ∈ s.Exceptions, e.1.Valid ∧ e.1.Year ≠ 0) ∧
    ((s.Start_date.Valid ∧ 0 < s.Start_date.Year ∧ s.End_date.Valid ∧ 0 < s.End_date.Year) ∨
      (s.Start_date.Year = 0 ∧ s.End_date.Year = 0 ∧ (∀ i, s.Daymap i = false) ∧
        s.Exceptions ≠ []))

instance (s : Service) : Decidable s.InRange := by
  unfold Service.InRange; infer_instance

instance (s : Service) : Decidable s.WellFormed := by
  unfold Service.WellFormed; infer_instance

/-- `IsActiveOn` as the specification words it: the exception entry of the
date when there is one, otherwise the weekday flag within the date range. -/
def Service.IsActiveOn_spec (s : Service) (d : Date) : Bool :=
  match mapGet s.Exceptions d with
  | some forced => forced
  | none =>
    s.Daymap (Time.Weekday d.GetTime) && decide (s.Start_date.GetTime ≤ d.GetTime)
      && decide (d.GetTime ≤ s.End_date.GetTime)

/-! ## Concrete services used as examples -/

/-- A heap with `a` at address 0 and `b` at every other address. -/
def heapOf (a b : Service) : Nat → Service := fun n => if n = 0 then a else b

/-- `Daymap` with every weekday set. -/
def allDays : Fin 7 → Bool := fun _ => true

/-- `Daymap` with no weekday set. -/
def noDays : Fin 7 → Bool := fun _ => false

/-- `Daymap` Monday to Friday. -/
def monFri : Fin 7 → Bool := fun i => decide (1 ≤ i.val ∧ i.val ≤ 5)

/-- Every day up to 2024-06-03 except 2024-06-01, with `Start_date` unset. -/
def exUnsetStart : Service :=
  ⟨"a", allDays, ⟨0, 0, 0⟩, ⟨3, 6, 2024⟩, [(⟨1, 6, 2024⟩, false)]⟩

/-- Every day from 2024-06-01 to 2024-06-03 except 2024-06-01. -/
def exSetStart : Service :=
  ⟨"b", allDays, ⟨1, 6, 2024⟩, ⟨3, 6, 2024⟩, [(⟨1, 6, 2024⟩, false)]⟩

/-- Monday to Friday in the week 2024-01-01 .. 2024-01-07. -/
def exWeek : Service := ⟨"w", monFri, ⟨1, 1, 2024⟩, ⟨7, 1, 2024⟩, []⟩

/-- The same five days, given as exceptions only. -/
def exWeekDates : Service :=
  ⟨"x", noDays, ⟨0, 0, 0⟩, ⟨0, 0, 0⟩,
    [(⟨1, 1, 2024⟩, true), (⟨2, 1, 2024⟩, true), (⟨3, 1, 2024⟩, true), (⟨4, 1, 2024⟩, true),
      (⟨5, 1, 2024⟩, true)]⟩

/-- No weekday and no exception, January 2024. -/
def exEmptyJan : Service := ⟨"e", noDays, ⟨1, 1, 2024⟩, ⟨31, 1, 2024⟩, []⟩

/-- No weekday and a single exception that forces 2025-03-01 inactive. -/
def exOffOnly : Service := ⟨"o", noDays, ⟨0, 0, 0⟩, ⟨0, 0, 0⟩, [(⟨1, 3, 2025⟩, false)]⟩

/-- An exception on the key `Date{31, 4, 2024}`, which is not a calendar date. -/
def exApril31 : Service := ⟨"a", noDays, ⟨0, 0, 0⟩, ⟨0, 0, 0⟩, [(⟨31, 4, 2024⟩, true)]⟩

/-- An exception on 2024-05-01, the day `Date{31, 4, 2024}` falls on. -/
def exMay1 : Service := ⟨"b", noDays, ⟨0, 0, 0⟩, ⟨0, 0, 0⟩, [(⟨1, 5, 2024⟩, false)]⟩

/-- No weekday and no exception, January 2025. -/
def exEmpty2025 : Service := ⟨"f", noDays, ⟨1, 1, 2025⟩, ⟨31, 1, 2025⟩, []⟩

/-- Every day from 2024-06-01 to 2024-06-05. -/
def exFromJune1 : Service := ⟨"a", allDays, ⟨1, 6, 2024⟩, ⟨5, 6, 2024⟩, []⟩

/-- Every day from 2024-06-03 to 2024-06-05. -/
def exFromJune3 : Service := ⟨"b", allDays, ⟨3, 6, 2024⟩, ⟨5, 6, 2024⟩, []⟩

/-- A `Start_date` in year -5 and one exception in 2024. -/
def exNegStart : Service := ⟨"n", noDays, ⟨1, 1, -5⟩, ⟨0, 0, 0⟩, [(⟨1, 6, 2024⟩, true)]⟩

/-- January 2024 on weekdays, with 2024-01-06 forced active and 2024-01-08
forced inactive. -/
def exJanuary : Service :=
  ⟨"j", monFri, ⟨1, 1, 2024⟩, ⟨31, 1, 2024⟩, [(⟨6, 1, 2024⟩, true), (⟨8, 1, 2024⟩, false)]⟩

/-- Exception keys in year 0 and in year 5. -/
def exZeroKey : Service :=
  ⟨"z", noDays, ⟨0, 0, 0⟩, ⟨0, 0, 0⟩, [(⟨1, 1, 0⟩, true), (⟨1, 1, 5⟩, true)]⟩

/-- Every weekday, on 2024-05-01 only, and that day forced inactive. -/
def exMayOff : Service :=
  ⟨"c", allDays, ⟨1, 5, 2024⟩, ⟨1, 5, 2024⟩, [(⟨1, 5, 2024⟩, false)]⟩

/-- No weekday, and 2024-05-01 forced inactive. -/
def exMayNone : Service :=
  ⟨"d", noDays, ⟨1, 5, 2024⟩, ⟨1, 5, 2024⟩, [(⟨1, 5, 2024⟩, false)]⟩

/-! ## The remaining operations of `service.go` -/

/-- Go map write `m[d] = v`: the entry of `d` is replaced where it stands when
`d` is a key, and a new entry is added otherwise. -/
def mapSet (m : List (Date × Bool)) (d : Date) (v : Bool) : List (Date × Bool) :=
  match m with
  | [] => [(d, v)]
  | e :: rest => if e.1 = d then (d, v) :: rest else e :: mapSet rest d v

/-- `Service.SetExceptionTypeOn`, on a service whose `Exceptions` map is
initialised (a write to a nil map panics in Go and is not modelled). -/
def Service.SetExceptionTypeOn (s : Service) (d : Date) (t : Int) : Service :=
  if t = 1 then { s with Exceptions := mapSet s.Exceptions d true }
  else if t = 2 then { s with Exceptions := mapSet s.Exceptions d false }
  else s

/-- The `for` loop of `Service.GetFirstActiveDate`, started at `d`, followed by
the statement after it: `none` when `fuel` iterations do not suffice. -/
def Service.firstActiveLoop (s : Service) (endD : Date) : Nat → Date → Option Date
  | 0, _ => none
  | fuel + 1, d =>
    if Time.After d.GetTime endD.GetTime then some ⟨-1, -1, -1⟩
    else if s.IsActiveOn d then some d
    else Service.firstActiveLoop s endD fuel (d.GetOffsettedDate 1)

/-- `Service.GetFirstActiveDate`.  Its calls of `GetFirstDefinedDate` and
`GetLastDefinedDate` run the `range` loops 0 and 1 of the call. -/
def Service.GetFirstActiveDate (fuel : Nat) (ord : RangeOrder) (s : Service) : Option Date :=
  let start := (s.ranged ord 0).GetFirstDefinedDate
  let endD := (s.ranged ord 1).GetLastDefinedDate
  Service.firstActiveLoop s endD fuel start

/-- The `for` loop of `Service.GetLastActiveDate`, started at `d`, followed by
the statement after it: `none` when `fuel` iterations do not suffice. -/
def Service.lastActiveLoop (s : Service) (start : Date) : Nat → Date → Option Date
  | 0, _ => none
  | fuel + 1, d =>
    if Time.Before d.GetTime start.GetTime then some ⟨-1, -1, -1⟩
    else if s.IsActiveOn d then some d
    else Service.lastActiveLoop s start fuel (d.GetOffsettedDate (-1))

/-- `Service.GetLastActiveDate`.  Its calls of `GetFirstDefinedDate` and
`GetLastDefinedDate` run the `range` loops 0 and 1 of the call. -/
def Service.GetLastActiveDate (fuel : Nat) (ord : RangeOrder) (s : Service) : Option Date :=
  let start := (s.ranged ord 0).GetFirstDefinedDate
  let endD := (s.ranged ord 1).GetLastDefinedDate
  Service.lastActiveLoop s start fuel endD

/-- The shortcut branch of `Date.GetOffsettedDate`. -/
def Date.offsetShortcut (d : Date) (offset : Int) : Date :=
  { d with Day := toInt8 (d.Day + toInt8 offset) }

/-- The general branch of `Date.GetOffsettedDate`. -/
def Date.offsetGeneral (d : Date) (offset : Int) : Date :=
  GetGtfsDateFromTime (Time.AddDate d.GetTime 0 0 offset)

/-- The date `GetFirstActiveDate` and `GetLastActiveDate` return when they
find no active date. -/
def notFound : Date := ⟨-1, -1, -1⟩

/-! ## `color_utils.go`

A Go string is its list of bytes.  `float64(val) / 255.0` is the rational
`val / 255`; the rounding of the division to a `float64` is not modelled. -/

/-- Digit value of a byte in Go `strconv.ParseUint`: `'0'..'9'` count 0 to 9,
and a byte whose lower-case form `c | 0x20` lies in `'a'..'z'` counts from 10. -/
def digitVal (c : Nat) : Option Nat :=
  if 48 ≤ c ∧ c ≤ 57 then some (c - 48)
  else if 97 ≤ (c ||| 32) ∧ (c ||| 32) ≤ 122 then some ((c ||| 32) - 97 + 10)
  else none

/-- The digit loop of Go `strconv.ParseUint(s, 16, 64)`; `none` is a syntax
error.  The range errors of the Go loop need more than sixteen digits. -/
def parseDigits (acc : Nat) (s : List Nat) : Option Nat :=
  match s with
  | [] => some acc
  | c :: rest =>
    match digitVal c with
    | none => none
    | some v => if v ≥ 16 then none else parseDigits (acc * 16 + v) rest

/-- Go `strconv.ParseUint(s, 16, 64)` on at most sixteen bytes. -/
def parseUint16 (s : List Nat) : Option Nat :=
  if s = [] then none else parseDigits 0 s

/-- Go `strconv.ParseInt(s, 16, 64)` on at most sixteen bytes: a leading `'+'`
or `'-'` is picked off, the rest goes to `ParseUint`. -/
def parseInt16 (s : List Nat) : Option Int :=
  match s with
  | [] => none
  | c :: rest =>
    if c = 43 then (parseUint16 rest).map (fun n => (n : Int))
    else if c = 45 then (parseUint16 rest).map (fun n => -(n : Int))
    else (parseUint16 (c :: rest)).map (fun n => (n : Int))

/-- The four results of `hexToRGB`; `err` is true for a non-nil error. -/
structure RGBResult where
  r : ℚ
  g : ℚ
  b : ℚ
  err : Bool
deriving DecidableEq

/-- The closure `parse` of `hexToRGB`: `none` is a non-nil error. -/
def hexParse (s : List Nat) : Option ℚ :=
  match parseInt16 s with
  | none => none
  | some val => some ((val : ℚ) / 255)

/-- `hexToRGB`.  `hex[0:2]`, `hex[2:4]` and `hex[4:6]` are byte slices. -/
def hexToRGB (hex : List Nat) : RGBResult :=
  if hex.length ≠ 6 then ⟨0, 0, 0, true⟩
  else
    match hexParse (hex.take 2) with
    | none => ⟨0, 0, 0, true⟩
    | some r =>
      match hexParse ((hex.drop 2).take 2) with
      | none => ⟨r, 0, 0, true⟩
      | some g =>
        match hexParse ((hex.drop 4).take 2) with
        | none => ⟨r, g, 0, true⟩
        | some b => ⟨r, g, b, false⟩

/-- A hexadecimal digit: `0-9`, `A-F` or `a-f`. -/
def isHexDigit (c : Nat) : Bool :=
  (decide (48 ≤ c) && decide (c ≤ 57)) || (decide (65 ≤ c) && decide (c ≤ 70))
    || (decide (97 ≤ c) && decide (c ≤ 102))

/-! ## Further concrete services -/

/-- An exception on the key `Date{31, 4, 2024}` within 2024-04-30 .. 2024-05-02. -/
def exApril31Window : Service :=
  ⟨"q", noDays, ⟨30, 4, 2024⟩, ⟨2, 5, 2024⟩, [(⟨31, 4, 2024⟩, true)]⟩

/-- No weekday, no exception and unset dates. -/
def exEmptyUnset : Service := ⟨"d", noDays, ⟨0, 0, 0⟩, ⟨0, 0, 0⟩, []⟩

/-- A single exception that forces 0000-03-15 active. -/
def exYearZero : Service := ⟨"y", noDays, ⟨0, 0, 0⟩, ⟨0, 0, 0⟩, [(⟨15, 3, 0⟩, true)]⟩

/-- Every weekday from `Date{31, 4, 2024}` to 2024-05-03, with the key
`Date{31, 4, 2024}` forced inactive. -/
def exApril31Start : Service :=
  ⟨"s", allDays, ⟨31, 4, 2024⟩, ⟨3, 5, 2024⟩, [(⟨31, 4, 2024⟩, false)]⟩

/-- Every weekday from 2024-04-29 to `Date{31, 4, 2024}`, with the key
`Date{31, 4, 2024}` forced inactive. -/
def exApril31End : Service :=
  ⟨"t", allDays, ⟨29, 4, 2024⟩, ⟨31, 4, 2024⟩, [(⟨31, 4, 2024⟩, false)]⟩

/-- A single exception that forces 2024-03-15 active. -/
def exMarch15 : Service := ⟨"m", noDays, ⟨0, 0, 0⟩, ⟨0, 0, 0⟩, [(⟨15, 3, 2024⟩, true)]⟩

/-- No weekday and no exception, on the last two days of year 32767. -/
def exLastDays : Service := ⟨"l", noDays, ⟨30, 12, 32767⟩, ⟨31, 12, 32767⟩, []⟩

/-- No weekday and no exception, on the first two days of year -32768. -/
def exFirstDays : Service := ⟨"k", noDays, ⟨1, 1, -32768⟩, ⟨2, 1, -32768⟩, []⟩

/-- The exceptions of `exZeroKey`, enumerated in the other order. -/
def exZeroKeyRev : Service :=
  ⟨"z", noDays, ⟨0, 0, 0⟩, ⟨0, 0, 0⟩, [(⟨1, 1, 5⟩, true), (⟨1, 1, 0⟩, true)]⟩

/-- Weekdays with a `Start_date` after the `End_date`. -/
def exInverted : Service := ⟨"i", monFri, ⟨1, 2, 2024⟩, ⟨1, 1, 2024⟩, []⟩

/-- Exception keys 0000-01-01 and 2024-05-01, both forced inactive, with a
`Start_date` 2024-06-01 after the `End_date` 2024-05-03. -/
def exZeroKeyInverted : Service :=
  ⟨"v", monFri, ⟨1, 6, 2024⟩, ⟨3, 5, 2024⟩, [(⟨1, 1, 0⟩, false), (⟨1, 5, 2024⟩, false)]⟩

/-- Every day from 2024-06-01 to 2024-06-03, with the exception keys
0000-01-01 (forced inactive) and 2024-05-01 (forced active). -/
def exZeroKeyJune : Service :=
  ⟨"a", allDays, ⟨1, 6, 2024⟩, ⟨3, 6, 2024⟩, [(⟨1, 1, 0⟩, false), (⟨1, 5, 2024⟩, true)]⟩

/-- Every day from 2024-06-01 to 2024-06-03. -/
def exJuneDays : Service := ⟨"b", allDays, ⟨1, 6, 2024⟩, ⟨3, 6, 2024⟩, []⟩

/-- The bytes of the string `-F-F-F`. -/
def signedHex : List Nat := [45, 70, 45, 70, 45, 70]

/-! ## Lemmas on the calendar arithmetic -/

theorem isLeap_iff (y : Int) : isLeap y = true ↔ (y % 4 = 0 ∧ (y % 100 ≠ 0 ∨ y % 400 = 0)) := by
  simp [isLeap]

theorem daysSinceEpoch_cycles (a b c e : Int) (hb : 0 ≤ b ∧ b < 4) (hc : 0 ≤ c ∧ c < 25)
    (he : 0 ≤ e ∧ e < 4) :
    daysSinceEpoch (400 * a + 100 * b + 4 * c + e + 1)
      = 146097 * a + 36524 * b + 1461 * c + 365 * e := by
  simp only [daysSinceEpoch]
  have h1 : (400 * a + 100 * b + 4 * c + e + 1 - 1) / 400 = a := by omega
  rw [h1]
  have h2 : (400 * a + 100 * b + 4 * c + e + 1 - 1 - 400 * a) / 100 = b := by omega
  rw [h2]
  have h3 : (400 * a + 100 * b + 4 * c + e + 1 - 1 - 400 * a - 100 * b) / 4 = c := by omega
  rw [h3]
  omega

theorem isLeap_cycles (a b c e : Int) (hb : 0 ≤ b ∧ b < 4) (hc : 0 ≤ c ∧ c < 25)
    (he : 0 ≤ e ∧ e < 4) :
    isLeap (400 * a + 100 * b + 4 * c + e + 1) = true ↔ (e = 3 ∧ (c ≠ 24 ∨ b = 3)) := by
  rw [isLeap_iff]
  omega

theorem absYear_spec (t : Int) :
    daysSinceEpoch (absYear t).1 + (absYear t).2 = t ∧ 0 ≤ (absYear t).2 ∧
      (absYear t).2 < yearLen (absYear t).1 := by
  simp only [absYear]
  generalize ha : t / 146097 = a
  generalize hd1 : t - 146097 * a = d1
  have hd1b : 0 ≤ d1 ∧ d1 < 146097 := by omega
  generalize hn100 : d1 / 36524 = n100
  have hn100b : 0 ≤ n100 ∧ n100 ≤ 4 := by omega
  generalize hb : n100 - n100 / 4 = b
  have hbb : 0 ≤ b ∧ b < 4 := by omega
  generalize hd2 : d1 - 36524 * b = d2
  have hd2b : 0 ≤ d2 ∧ d2 ≤ 36524 ∧ (d2 = 36524 → b = 3) := by omega
  generalize hc : d2 / 1461 = c
  have hcb : 0 ≤ c ∧ c < 25 := by omega
  generalize hd3 : d2 - 1461 * c = d3
  have hd3b : 0 ≤ d3 ∧ d3 < 1461 := by omega
  generalize hn1 : d3 / 365 = n1
  have hn1b : 0 ≤ n1 ∧ n1 ≤ 4 := by omega
  generalize he : n1 - n1 / 4 = e
  have heb : 0 ≤ e ∧ e < 4 := by omega
  rw [daysSinceEpoch_cycles a b c e hbb hcb heb]
  unfold yearLen
  have hl := isLeap_cycles a b c e hbb hcb heb
  refine ⟨by omega, by omega, ?_⟩
  split <;> rename_i h
  · omega
  · rw [hl] at h
    omega

theorem daysSinceEpoch_succ (y : Int) : daysSinceEpoch (y + 1) = daysSinceEpoch y + yearLen y := by
  obtain ⟨a, b, c, e, hb, hc, he, rfl⟩ : ∃ a b c e : Int, (0 ≤ b ∧ b < 4) ∧ (0 ≤ c ∧ c < 25) ∧
      (0 ≤ e ∧ e < 4) ∧ y = 400 * a + 100 * b + 4 * c + e + 1 :=
    ⟨(y-1) / 400, ((y-1) % 400) / 100, ((y-1) % 100) / 4, (y-1) % 4, by omega, by omega, by omega,
      by omega⟩
  have hl := isLeap_cycles a b c e hb hc he
  rw [daysSinceEpoch_cycles a b c e hb hc he]
  unfold yearLen
  by_cases h3 : e = 3
  · by_cases h24 : c = 24
    · by_cases hb3 : b = 3
      · have : 400 * a + 100 * b + 4 * c + e + 1 + 1 = 400 * (a+1) + 100 * 0 + 4 * 0 + 0 + 1 := by omega
        rw [this, daysSinceEpoch_cycles (a+1) 0 0 0 (by omega) (by omega) (by omega)]
        rw [if_pos (hl.2 ⟨h3, Or.inr hb3⟩)]; omega
      · have : 400 * a + 100 * b + 4 * c + e + 1 + 1 = 400 * a + 100 * (b+1) + 4 * 0 + 0 + 1 := by omega
        rw [this, daysSinceEpoch_cycles a (b+1) 0 0 (by omega) (by omega) (by omega)]
        rw [if_neg (fun h => by have := hl.1 h; omega)]; omega
    · have : 400 * a + 100 * b + 4 * c + e + 1 + 1 = 400 * a + 100 * b + 4 * (c+1) + 0 + 1 := by omega
      rw [this, daysSinceEpoch_cycles a b (c+1) 0 (by omega) (by omega) (by omega)]
      rw [if_pos (hl.2 ⟨h3, Or.inl h24⟩)]; omega
  · have : 400 * a + 100 * b + 4 * c + e + 1 + 1 = 400 * a + 100 * b + 4 * c + (e+1) + 1 := by omega
    rw [this, daysSinceEpoch_cycles a b c (e+1) (by omega) (by omega) (by omega)]
    rw [if_neg (fun h => by have := hl.1 h; omega)]; omega

theorem yearLen_pos (y : Int) : 365 ≤ yearLen y ∧ yearLen y ≤ 366 := by
  unfold yearLen; split <;> omega

theorem daysSinceEpoch_mono_aux (y : Int) (k : Nat) :
    daysSinceEpoch y + 365 * k ≤ daysSinceEpoch (y + k) ∧
      daysSinceEpoch (y + k) ≤ daysSinceEpoch y + 366 * k := by
  induction k with
  | zero => simp
  | succ k ih =>
    have h := daysSinceEpoch_succ (y + k)
    have hp := yearLen_pos (y + k)
    have e : y + ((k + 1 : Nat) : Int) = y + k + 1 := by push_cast; ring
    rw [e, h]
    push_cast
    omega

theorem daysSinceEpoch_le (y z : Int) (h : y ≤ z) :
    daysSinceEpoch y + 365 * (z - y) ≤ daysSinceEpoch z ∧
      daysSinceEpoch z ≤ daysSinceEpoch y + 366 * (z - y) := by
  have := daysSinceEpoch_mono_aux y (z - y).toNat
  have e : ((z - y).toNat : Int) = z - y := Int.toNat_of_nonneg (by omega)
  rw [e] at this
  have e2 : y + (z - y) = z := by ring
  rw [e2] at this
  exact this

theorem daysSinceEpoch_lt (y z : Int) (h : y < z) :
    daysSinceEpoch y + yearLen y ≤ daysSinceEpoch z := by
  have h1 := daysSinceEpoch_succ y
  have h2 := (daysSinceEpoch_le (y + 1) z (by omega)).1
  omega

theorem absYear_unique (y yd : Int) (h0 : 0 ≤ yd) (h1 : yd < yearLen y) :
    absYear (daysSinceEpoch y + yd) = (y, yd) := by
  obtain ⟨e, l, u⟩ := absYear_spec (daysSinceEpoch y + yd)
  generalize absYear (daysSinceEpoch y + yd) = r at e l u
  obtain ⟨y1, yd1⟩ := r
  simp only at e l u
  have hy : y1 = y := by
    rcases lt_trichotomy y1 y with h | h | h
    · have := daysSinceEpoch_lt y1 y h; omega
    · exact h
    · have := daysSinceEpoch_lt y y1 h; omega
  subst hy
  simp only [Prod.mk.injEq, true_and]
  omega

theorem daysBefore_table :
    daysBefore 0 = 0 ∧ daysBefore 1 = 31 ∧ daysBefore 2 = 59 ∧ daysBefore 3 = 90 ∧
    daysBefore 4 = 120 ∧ daysBefore 5 = 151 ∧ daysBefore 6 = 181 ∧ daysBefore 7 = 212 ∧
    daysBefore 8 = 243 ∧ daysBefore 9 = 273 ∧ daysBefore 10 = 304 ∧ daysBefore 11 = 334 ∧
    daysBefore 12 = 365 := by decide

theorem monthDay_split (day : Int) (h0 : 0 ≤ day) (h1 : day < 365) :
    ∃ m d : Int, 1 ≤ m ∧ m ≤ 12 ∧ 1 ≤ d ∧ d ≤ daysBefore m - daysBefore (m - 1) ∧
      daysBefore (m - 1) + (d - 1) = day ∧
      (if day ≥ daysBefore (day / 31 + 1) then (day / 31 + 1 + 1, day - daysBefore (day / 31 + 1) + 1)
        else (day / 31 + 1, day - daysBefore (day / 31) + 1)) = (m, d) := by
  obtain ⟨t0, t1, t2, t3, t4, t5, t6, t7, t8, t9, t10, t11, t12⟩ := daysBefore_table
  generalize hm : day / 31 = m
  have hmb : 0 ≤ m ∧ m ≤ 11 := by omega
  obtain ⟨hm0, hm11⟩ := hmb
  interval_cases m <;> norm_num only [t0, t1, t2, t3, t4, t5, t6, t7, t8, t9, t10, t11, t12] <;>
    split_ifs <;> refine ⟨_, _, ?_, ?_, ?_, ?_, ?_, rfl⟩ <;>
    norm_num only [t0, t1, t2, t3, t4, t5, t6, t7, t8, t9, t10, t11, t12] <;> omega

theorem daysBefore_step (i : Int) (h0 : 0 ≤ i) (h1 : i < 12) :
    daysBefore i + 28 ≤ daysBefore (i + 1) ∧ daysBefore (i + 1) ≤ daysBefore i + 31 := by
  obtain ⟨t0, t1, t2, t3, t4, t5, t6, t7, t8, t9, t10, t11, t12⟩ := daysBefore_table
  interval_cases i <;> norm_num [t0, t1, t2, t3, t4, t5, t6, t7, t8, t9, t10, t11, t12]

theorem daysBefore_mono_aux (i : Int) (k : Nat) (h0 : 0 ≤ i) (h1 : i + k ≤ 12) :
    daysBefore i ≤ daysBefore (i + k) := by
  induction k with
  | zero => simp
  | succ k ih =>
    have e : i + ((k + 1 : Nat) : Int) = i + k + 1 := by push_cast; ring
    rw [e] at h1 ⊢
    have := daysBefore_step (i + k) (by omega) (by omega)
    have := ih (by omega)
    omega

theorem daysBefore_mono (i j : Int) (h0 : 0 ≤ i) (hij : i ≤ j) (h1 : j ≤ 12) :
    daysBefore i ≤ daysBefore j := by
  have := daysBefore_mono_aux i (j - i).toNat h0 (by omega)
  have e : i + ((j - i).toNat : Int) = j := by omega
  rwa [e] at this

theorem yearDay_inj (leap : Bool) (m d m1 d1 : Int) (h : validMD leap m d)
    (h1 : validMD leap m1 d1) (e : yearDay leap m d = yearDay leap m1 d1) : m = m1 ∧ d = d1 := by
  obtain ⟨t0, t1, t2, t3, t4, t5, t6, t7, t8, t9, t10, t11, t12⟩ := daysBefore_table
  have key : ∀ a x b y : Int, validMD leap a x → validMD leap b y → a < b →
      yearDay leap a x < yearDay leap b y := by
    intro a x b y ha hb hab
    obtain ⟨ha1, ha2, ha3, ha4⟩ := ha
    obtain ⟨hb1, hb2, hb3, hb4⟩ := hb
    have hm := daysBefore_mono a (b - 1) (by omega) (by omega) (by omega)
    unfold yearDay
    unfold daysIn at ha4
    by_cases ha2 : a = 2
    · subst ha2
      by_cases hb3 : b ≥ 3
      · cases leap <;> simp [hb3] at ha4 ⊢ <;> omega
      · omega
    · have e1 : (leap && decide (a = 2)) = false := by simp [ha2]
      simp only [e1, Bool.false_eq_true, if_false] at ha4
      by_cases ha3 : a ≥ 3
      · have hb3 : b ≥ 3 := by omega
        cases leap <;> simp [ha3, hb3] <;> omega
      · have e2 : (leap && decide (a ≥ 3)) = false := by simp [ha3]
        simp only [e2, Bool.false_eq_true, if_false]
        split <;> omega
  have hm : m = m1 := by
    rcases lt_trichotomy m m1 with hlt | heq | hgt
    · have := key m d m1 d1 h h1 hlt; omega
    · exact heq
    · have := key m1 d1 m d h1 h hgt; omega
  subst hm
  refine ⟨rfl, ?_⟩
  unfold yearDay at e
  omega

theorem monthDay_spec (leap : Bool) (yd : Int) (h0 : 0 ≤ yd)
    (h1 : yd < if leap then 366 else 365) :
    validMD leap (monthDay leap yd).1 (monthDay leap yd).2 ∧
    yearDay leap (monthDay leap yd).1 (monthDay leap yd).2 = yd := by
  obtain ⟨t0, t1, t2, t3, t4, t5, t6, t7, t8, t9, t10, t11, t12⟩ := daysBefore_table
  unfold monthDay
  by_cases h59 : leap = true ∧ yd = 59
  · obtain ⟨rfl, rfl⟩ := h59
    norm_num [validMD, daysIn, yearDay, t1, t2]
  · have hif : (leap && decide (yd = 31 + 29 - 1)) = false := by
      cases leap <;> simp at h59 ⊢; omega
    simp only [hif, Bool.false_eq_true, if_false]
    generalize hday : (if (leap && decide (yd > 31 + 29 - 1)) = true then yd - 1 else yd) = day
    have hrel : (leap = true ∧ yd > 59 ∧ day = yd - 1) ∨ ((leap = false ∨ yd < 59) ∧ day = yd) := by
      cases leap
      · simp at hday; simp [hday]
      · simp at hday h59
        split at hday
        · left; exact ⟨rfl, by omega, by omega⟩
        · right; exact ⟨Or.inr (by omega), by omega⟩
    have hdb : 0 ≤ day ∧ day < 365 := by
      cases leap <;> simp at h1 hrel <;> omega
    obtain ⟨m, d, hm1, hm12, hd1, hdn, hsum, hres⟩ := monthDay_split day hdb.1 hdb.2
    simp only [ge_iff_le] at hres ⊢
    rw [hres]
    simp only [validMD, daysIn, yearDay]
    have hmono2 := daysBefore_mono (m - 1) 1 (by omega)
    rw [t1] at hmono2
    refine ⟨⟨hm1, hm12, hd1, ?_⟩, ?_⟩
    · split <;> omega
    · rcases hrel with ⟨hl, hy, hd⟩ | ⟨hl, hd⟩
      · have hm3 : m ≥ 3 := by
          by_contra hc
          have := hmono2 (by omega) (by omega)
          have : m = 1 ∨ m = 2 := by omega
          rcases this with rfl | rfl
          · norm_num only [t0, t1] at hdn hsum; omega
          · norm_num only [t2, t1] at hdn hsum; omega
        simp [hl, hm3]; omega
      · rcases hl with hl | hl
        · simp [hl]; omega
        · have hm2 : ¬ m ≥ 3 := by
            intro hc
            have hq := daysBefore_mono 2 (m - 1) (by omega) (by omega) (by omega)
            rw [t2] at hq
            omega
          simp [hm2]; omega

theorem yearDay_bounds (leap : Bool) (m d : Int) (h : validMD leap m d) :
    0 ≤ yearDay leap m d ∧ yearDay leap m d < if leap then 366 else 365 := by
  obtain ⟨h1, h2, h3, h4⟩ := h
  unfold yearDay
  unfold daysIn at h4
  have ha := daysBefore_mono 0 (m - 1) (by omega) (by omega) (by omega)
  have hc := daysBefore_mono m 12 (by omega) (by omega) (by omega)
  have hd := daysBefore_mono m 2 (by omega)
  have t := daysBefore_table
  obtain ⟨t0, t1, t2, t3, t4, t5, t6, t7, t8, t9, t10, t11, t12⟩ := t
  rw [t0] at ha; rw [t12] at hc; rw [t2] at hd
  cases leap
  · simp at h4 ⊢; omega
  · by_cases hm3 : m ≥ 3
    · have : ¬ m = 2 := by omega
      simp [hm3, this] at h4 ⊢; omega
    · simp [hm3] at h4 ⊢
      split at h4
      · subst m; norm_num only [t1, t2] at h4 ⊢; omega
      · omega

theorem monthDay_unique (leap : Bool) (m d : Int) (h : validMD leap m d) :
    monthDay leap (yearDay leap m d) = (m, d) := by
  have hb := yearDay_bounds leap m d h
  obtain ⟨hv, he⟩ := monthDay_spec leap (yearDay leap m d) hb.1 hb.2
  obtain ⟨e1, e2⟩ := yearDay_inj leap _ _ m d hv h he
  exact Prod.ext e1 e2

theorem timeDate_add_day (y m d k : Int) : timeDate y m (d + k) = timeDate y m d + k := by
  unfold timeDate; ring

theorem timeDate_of_month (y m d : Int) (h1 : 1 ≤ m) (h12 : m ≤ 12) :
    timeDate y m d = daysSinceEpoch y + yearDay (isLeap y) m d := by
  have e1 : (m - 1) / 12 = 0 := by omega
  have e2 : (m - 1) % 12 = m - 1 := by omega
  have e3 : m - 1 + 1 = m := by ring
  unfold timeDate yearDay
  simp only [e1, e2, e3, add_zero]
  ring

theorem civil_valid (t : Int) : validMD (isLeap (Time.Year t)) (Time.Month t) (Time.Day t) := by
  obtain ⟨_, h0, h1⟩ := absYear_spec t
  unfold yearLen at h1
  have h2 : (absYear t).2 < if isLeap (absYear t).1 then 366 else 365 := by
    split at h1 <;> simp_all
  exact (monthDay_spec _ _ h0 h2).1

theorem timeDate_civil (t : Int) : timeDate (Time.Year t) (Time.Month t) (Time.Day t) = t := by
  obtain ⟨e, h0, h1⟩ := absYear_spec t
  unfold yearLen at h1
  have h2 : (absYear t).2 < if isLeap (absYear t).1 then 366 else 365 := by
    split at h1 <;> simp_all
  obtain ⟨hv, hy⟩ := monthDay_spec _ _ h0 h2
  unfold Time.Year Time.Month Time.Day
  rw [timeDate_of_month _ _ _ hv.1 hv.2.1, hy]
  exact e

theorem civil_timeDate (y m d : Int) (h : validMD (isLeap y) m d) :
    Time.Year (timeDate y m d) = y ∧ Time.Month (timeDate y m d) = m ∧
      Time.Day (timeDate y m d) = d := by
  rw [timeDate_of_month _ _ _ h.1 h.2.1]
  have hu := monthDay_unique _ _ _ h
  have hb := yearDay_bounds _ _ _ h
  have hb2 : yearDay (isLeap y) m d < yearLen y := by
    unfold yearLen
    have := hb.2
    split at this <;> simp_all
  have hy := absYear_unique y _ hb.1 hb2
  unfold Time.Year Time.Month Time.Day
  rw [hy]
  simp only [hu, and_self]

theorem AddDate_days (t n : Int) : Time.AddDate t 0 0 n = t + n := by
  unfold Time.AddDate
  rw [add_zero, add_zero, timeDate_add_day, timeDate_civil]

theorem toInt8_of_range (x : Int) (h0 : -128 ≤ x) (h1 : x ≤ 127) : toInt8 x = x := by
  unfold toInt8; omega

theorem toInt16_of_range (x : Int) (h0 : -32768 ≤ x) (h1 : x ≤ 32767) : toInt16 x = x := by
  unfold toInt16; omega

theorem validMD_le (leap : Bool) (m d : Int) (h : validMD leap m d) : d ≤ 31 := by
  obtain ⟨h1, h2, h3, h4⟩ := h
  unfold daysIn at h4
  have := daysBefore_step (m - 1) (by omega) (by omega)
  rw [show m - 1 + 1 = m by ring] at this
  by_cases hm : m = 2
  · subst hm
    obtain ⟨t0, t1, t2, _⟩ := daysBefore_table
    norm_num only [t1, t2] at h4
    split at h4 <;> omega
  · simp [hm] at h4; omega

/-- `GetGtfsDateFromTime` without the `int16` wrap of the year, the conversions
of day and month being exact. -/
theorem GetGtfsDateFromTime_eq (t : Int) :
    GetGtfsDateFromTime t = ⟨Time.Day t, Time.Month t, toInt16 (Time.Year t)⟩ := by
  have hv := civil_valid t
  have hd := validMD_le _ _ _ hv
  obtain ⟨h1, h2, h3, h4⟩ := hv
  unfold GetGtfsDateFromTime
  rw [toInt8_of_range _ (by omega) (by omega), toInt8_of_range _ (by omega) (by omega)]

theorem GetGtfsDateFromTime_valid (t : Int) (h0 : -32768 ≤ Time.Year t) (h1 : Time.Year t ≤ 32767) :
    (GetGtfsDateFromTime t).Valid ∧ (GetGtfsDateFromTime t).GetTime = t := by
  rw [GetGtfsDateFromTime_eq, toInt16_of_range _ h0 h1]
  exact ⟨⟨civil_valid t, h0, h1⟩, timeDate_civil t⟩

theorem GetGtfsDateFromTime_GetTime (d : Date) (h : d.Valid) :
    GetGtfsDateFromTime d.GetTime = d := by
  obtain ⟨hv, h0, h1⟩ := h
  obtain ⟨e1, e2, e3⟩ := civil_timeDate d.Year d.Month d.Day hv
  rw [GetGtfsDateFromTime_eq]
  unfold Date.GetTime
  rw [e1, e2, e3, toInt16_of_range _ h0 h1]

/-- Two valid dates on the same day are the same struct. -/
theorem Valid_GetTime_inj (d e : Date) (hd : d.Valid) (he : e.Valid) (h : d.GetTime = e.GetTime) :
    d = e := by
  rw [← GetGtfsDateFromTime_GetTime d hd, ← GetGtfsDateFromTime_GetTime e he, h]

theorem daysSinceEpoch_bounds :
    daysSinceEpoch (-32768) = minDate.GetTime ∧ daysSinceEpoch 32768 = maxDate.GetTime + 1 := by
  decide

theorem year_of_range (t : Int) (h0 : minDate.GetTime ≤ t) (h1 : t ≤ maxDate.GetTime) :
    -32768 ≤ Time.Year t ∧ Time.Year t ≤ 32767 := by
  obtain ⟨e, l, u⟩ := absYear_spec t
  obtain ⟨b0, b1⟩ := daysSinceEpoch_bounds
  unfold Time.Year
  constructor
  · by_contra hc
    have := daysSinceEpoch_lt (absYear t).1 (-32768) (by omega)
    omega
  · by_contra hc
    have := (daysSinceEpoch_le 32768 (absYear t).1 (by omega)).1
    omega

theorem Valid_time_range (d : Date) (h : d.Valid) :
    minDate.GetTime ≤ d.GetTime ∧ d.GetTime ≤ maxDate.GetTime := by
  obtain ⟨hv, h0, h1⟩ := h
  obtain ⟨b0, b1⟩ := daysSinceEpoch_bounds
  have hb := yearDay_bounds _ _ _ hv
  have hy : yearDay (isLeap d.Year) d.Month d.Day < yearLen d.Year := by
    unfold yearLen
    have := hb.2
    split at this <;> simp_all
  have e : d.GetTime = daysSinceEpoch d.Year + yearDay (isLeap d.Year) d.Month d.Day :=
    timeDate_of_month _ _ _ hv.1 hv.2.1
  have l := (daysSinceEpoch_le (-32768) d.Year h0).1
  have s := daysSinceEpoch_succ d.Year
  have u := (daysSinceEpoch_le (d.Year + 1) 32768 (by omega)).1
  omega

/-- The general path of `GetOffsettedDate`: the date of the day `offset` days on. -/
theorem GetOffsettedDate_general (d : Date) (n : Int)
    (h : ¬ ((n = 1 ∨ n = -1) ∧ d.Day > 1 ∧ d.Day < 27)) :
    d.GetOffsettedDate n = GetGtfsDateFromTime (d.GetTime + n) := by
  unfold Date.GetOffsettedDate
  rw [if_neg h, AddDate_days]

/-- The shortcut of `GetOffsettedDate`. -/
theorem GetOffsettedDate_shortcut (d : Date) (n : Int)
    (h : (n = 1 ∨ n = -1) ∧ d.Day > 1 ∧ d.Day < 27) :
    d.GetOffsettedDate n = ⟨d.Day + n, d.Month, d.Year⟩ := by
  unfold Date.GetOffsettedDate
  rw [if_pos h]
  have e : toInt8 (d.Day + toInt8 n) = d.Day + n := by
    unfold toInt8
    omega
  rw [e]

theorem daysIn_ge (leap : Bool) (m : Int) (h1 : 1 ≤ m) (h12 : m ≤ 12) : 28 ≤ daysIn leap m := by
  unfold daysIn
  have := daysBefore_step (m - 1) (by omega) (by omega)
  rw [show m - 1 + 1 = m by ring] at this
  split <;> omega

theorem Valid_setDay (d : Date) (k : Int) (h : d.Valid) (h1 : 1 ≤ k) (h28 : k ≤ 28) :
    (Date.mk k d.Month d.Year).Valid := by
  obtain ⟨⟨m1, m12, _, _⟩, y0, y1⟩ := h
  have := daysIn_ge (isLeap d.Year) d.Month m1 m12
  exact ⟨⟨m1, m12, h1, by simp only; omega⟩, y0, y1⟩

theorem GetTime_setDay (d : Date) (k : Int) :
    (Date.mk (d.Day + k) d.Month d.Year).GetTime = d.GetTime + k := by
  unfold Date.GetTime
  exact timeDate_add_day _ _ _ _

/-- On a valid date whose target stays within the `int16` years, every path of
`GetOffsettedDate` yields the valid date `offset` days on. -/
theorem GetOffsettedDate_valid (d : Date) (n : Int) (hv : d.Valid)
    (h0 : minDate.GetTime ≤ d.GetTime + n) (h1 : d.GetTime + n ≤ maxDate.GetTime) :
    (d.GetOffsettedDate n).Valid ∧ (d.GetOffsettedDate n).GetTime = d.GetTime + n := by
  by_cases h : (n = 1 ∨ n = -1) ∧ d.Day > 1 ∧ d.Day < 27
  · rw [GetOffsettedDate_shortcut d n h]
    exact ⟨Valid_setDay d _ hv (by omega) (by omega), GetTime_setDay d n⟩
  · rw [GetOffsettedDate_general d n h]
    obtain ⟨y0, y1⟩ := year_of_range _ h0 h1
    exact GetGtfsDateFromTime_valid _ y0 y1

theorem Weekday_add_seven (t : Int) : Time.Weekday (t + 7) = Time.Weekday t := by
  unfold Time.Weekday
  apply Fin.ext
  simp only
  omega

/-! ## Lemmas on boundary discovery -/

theorem foldl_firstStep_spec (l : List (Date × Bool)) :
    ∀ acc : Date, acc.Year ≠ 0 → (∀ e ∈ l, e.1.Year ≠ 0) →
      ((l.foldl firstStep acc = acc) ∨ ∃ e ∈ l, e.1 = l.foldl firstStep acc) ∧
      (l.foldl firstStep acc).GetTime ≤ acc.GetTime ∧
      (∀ e ∈ l, (l.foldl firstStep acc).GetTime ≤ e.1.GetTime) ∧
      (l.foldl firstStep acc).Year ≠ 0 := by
  induction l with
  | nil => intro acc hacc _; simp [hacc]
  | cons x rest ih =>
    intro acc hacc hk
    have hx : x.1.Year ≠ 0 := hk x (List.mem_cons_self _ _)
    have hrest : ∀ e ∈ rest, e.1.Year ≠ 0 := fun e he => hk e (List.mem_cons_of_mem _ he)
    rw [List.foldl_cons]
    by_cases hlt : x.1.GetTime < acc.GetTime
    · have hs : firstStep acc x = x.1 := by simp [firstStep, Time.Before, hlt]
      rw [hs]
      obtain ⟨hm, hle, hall, hy⟩ := ih x.1 hx hrest
      refine ⟨Or.inr ?_, by omega, ?_, hy⟩
      · rcases hm with hm | ⟨e, he, hm⟩
        · exact ⟨x, List.mem_cons_self _ _, hm.symm⟩
        · exact ⟨e, List.mem_cons_of_mem _ he, hm⟩
      · intro e he
        rcases List.mem_cons.1 he with rfl | he
        · exact hle
        · exact hall e he
    · have hs : firstStep acc x = acc := by simp [firstStep, Time.Before, hlt, hacc]
      rw [hs]
      obtain ⟨hm, hle, hall, hy⟩ := ih acc hacc hrest
      refine ⟨?_, hle, ?_, hy⟩
      · rcases hm with hm | ⟨e, he, hm⟩
        · exact Or.inl hm
        · exact Or.inr ⟨e, List.mem_cons_of_mem _ he, hm⟩
      · intro e he
        rcases List.mem_cons.1 he with rfl | he
        · omega
        · exact hall e he

theorem foldl_lastStep_spec (l : List (Date × Bool)) :
    ∀ acc : Date, acc.Year ≠ 0 → (∀ e ∈ l, e.1.Year ≠ 0) →
      ((l.foldl lastStep acc = acc) ∨ ∃ e ∈ l, e.1 = l.foldl lastStep acc) ∧
      acc.GetTime ≤ (l.foldl lastStep acc).GetTime ∧
      (∀ e ∈ l, e.1.GetTime ≤ (l.foldl lastStep acc).GetTime) ∧
      (l.foldl lastStep acc).Year ≠ 0 := by
  induction l with
  | nil => intro acc hacc _; simp [hacc]
  | cons x rest ih =>
    intro acc hacc hk
    have hx : x.1.Year ≠ 0 := hk x (List.mem_cons_self _ _)
    have hrest : ∀ e ∈ rest, e.1.Year ≠ 0 := fun e he => hk e (List.mem_cons_of_mem _ he)
    rw [List.foldl_cons]
    by_cases hlt : acc.GetTime < x.1.GetTime
    · have hs : lastStep acc x = x.1 := by simp [lastStep, Time.After, hlt]
      rw [hs]
      obtain ⟨hm, hle, hall, hy⟩ := ih x.1 hx hrest
      refine ⟨Or.inr ?_, by omega, ?_, hy⟩
      · rcases hm with hm | ⟨e, he, hm⟩
        · exact ⟨x, List.mem_cons_self _ _, hm.symm⟩
        · exact ⟨e, List.mem_cons_of_mem _ he, hm⟩
      · intro e he
        rcases List.mem_cons.1 he with rfl | he
        · exact hle
        · exact hall e he
    · have hs : lastStep acc x = acc := by simp [lastStep, Time.After, hlt, hacc]
      rw [hs]
      obtain ⟨hm, hle, hall, hy⟩ := ih acc hacc hrest
      refine ⟨?_, hle, ?_, hy⟩
      · rcases hm with hm | ⟨e, he, hm⟩
        · exact Or.inl hm
        · exact Or.inr ⟨e, List.mem_cons_of_mem _ he, hm⟩
      · intro e he
        rcases List.mem_cons.1 he with rfl | he
        · omega
        · exact hall e he

/-- The loop of `GetFirstDefinedDate` over a non-empty map without year-0 keys
ends on a key of minimal time. -/
theorem firstLoop_spec (l : List (Date × Bool)) (hne : l ≠ []) (hk : ∀ e ∈ l, e.1.Year ≠ 0) :
    (∃ e ∈ l, e.1 = l.foldl firstStep ⟨0, 0, 0⟩) ∧
      (∀ e ∈ l, (l.foldl firstStep ⟨0, 0, 0⟩).GetTime ≤ e.1.GetTime) ∧
      (l.foldl firstStep ⟨0, 0, 0⟩).Year ≠ 0 := by
  cases l with
  | nil => exact absurd rfl hne
  | cons x rest =>
    have hx : x.1.Year ≠ 0 := hk x (List.mem_cons_self _ _)
    have hrest : ∀ e ∈ rest, e.1.Year ≠ 0 := fun e he => hk e (List.mem_cons_of_mem _ he)
    have hs : firstStep ⟨0, 0, 0⟩ x = x.1 := by simp [firstStep]
    rw [List.foldl_cons, hs]
    obtain ⟨hm, hle, hall, hy⟩ := foldl_firstStep_spec rest x.1 hx hrest
    refine ⟨?_, ?_, hy⟩
    · rcases hm with hm | ⟨e, he, hm⟩
      · exact ⟨x, List.mem_cons_self _ _, hm.symm⟩
      · exact ⟨e, List.mem_cons_of_mem _ he, hm⟩
    · intro e he
      rcases List.mem_cons.1 he with rfl | he
      · exact hle
      · exact hall e he

theorem lastLoop_spec (l : List (Date × Bool)) (hne : l ≠ []) (hk : ∀ e ∈ l, e.1.Year ≠ 0) :
    (∃ e ∈ l, e.1 = l.foldl lastStep ⟨0, 0, 0⟩) ∧
      (∀ e ∈ l, e.1.GetTime ≤ (l.foldl lastStep ⟨0, 0, 0⟩).GetTime) ∧
      (l.foldl lastStep ⟨0, 0, 0⟩).Year ≠ 0 := by
  cases l with
  | nil => exact absurd rfl hne
  | cons x rest =>
    have hx : x.1.Year ≠ 0 := hk x (List.mem_cons_self _ _)
    have hrest : ∀ e ∈ rest, e.1.Year ≠ 0 := fun e he => hk e (List.mem_cons_of_mem _ he)
    have hs : lastStep ⟨0, 0, 0⟩ x = x.1 := by simp [lastStep]
    rw [List.foldl_cons, hs]
    obtain ⟨hm, hle, hall, hy⟩ := foldl_lastStep_spec rest x.1 hx hrest
    refine ⟨?_, ?_, hy⟩
    · rcases hm with hm | ⟨e, he, hm⟩
      · exact ⟨x, List.mem_cons_self _ _, hm.symm⟩
      · exact ⟨e, List.mem_cons_of_mem _ he, hm⟩
    · intro e he
      rcases List.mem_cons.1 he with rfl | he
      · exact hle
      · exact hall e he

theorem GetFirstDefinedDate_nil (s : Service) (h : s.Exceptions = []) :
    s.GetFirstDefinedDate = s.Start_date := by
  simp [Service.GetFirstDefinedDate, h]

theorem GetLastDefinedDate_nil (s : Service) (h : s.Exceptions = []) :
    s.GetLastDefinedDate = s.End_date := by
  simp [Service.GetLastDefinedDate, h]

theorem GetFirstDefinedDate_spec (s : Service) (hne : s.Exceptions ≠ [])
    (hk : ∀ e ∈ s.Exceptions, e.1.Year ≠ 0) :
    ((∃ e ∈ s.Exceptions, e.1 = s.GetFirstDefinedDate) ∨
        (0 < s.Start_date.Year ∧ s.GetFirstDefinedDate = s.Start_date)) ∧
      (∀ e ∈ s.Exceptions, s.GetFirstDefinedDate.GetTime ≤ e.1.GetTime) ∧
      (0 < s.Start_date.Year → s.GetFirstDefinedDate.GetTime ≤ s.Start_date.GetTime) := by
  obtain ⟨hm, hall, hy⟩ := firstLoop_spec s.Exceptions hne hk
  unfold Service.GetFirstDefinedDate
  simp only [hy, decide_False, Bool.false_or, Bool.and_eq_true, decide_eq_true_eq, Time.Before]
  split
  · rename_i hc
    refine ⟨Or.inr ⟨hc.1, rfl⟩, ?_, fun _ => le_refl _⟩
    intro e he
    have := hall e he
    omega
  · rename_i hc
    refine ⟨Or.inl hm, hall, ?_⟩
    intro hpos
    by_contra hlt
    exact hc ⟨hpos, by omega⟩

theorem GetLastDefinedDate_spec (s : Service) (hne : s.Exceptions ≠ [])
    (hk : ∀ e ∈ s.Exceptions, e.1.Year ≠ 0) :
    ((∃ e ∈ s.Exceptions, e.1 = s.GetLastDefinedDate) ∨
        (0 < s.End_date.Year ∧ s.GetLastDefinedDate = s.End_date)) ∧
      (∀ e ∈ s.Exceptions, e.1.GetTime ≤ s.GetLastDefinedDate.GetTime) ∧
      (0 < s.End_date.Year → s.End_date.GetTime ≤ s.GetLastDefinedDate.GetTime) := by
  obtain ⟨hm, hall, hy⟩ := lastLoop_spec s.Exceptions hne hk
  unfold Service.GetLastDefinedDate
  simp only [hy, decide_False, Bool.false_or, Bool.and_eq_true, decide_eq_true_eq, Time.After]
  split
  · rename_i hc
    refine ⟨Or.inr ⟨hc.1, rfl⟩, ?_, fun _ => le_refl _⟩
    intro e he
    have := hall e he
    omega
  · rename_i hc
    refine ⟨Or.inl hm, hall, ?_⟩
    intro hpos
    by_contra hlt
    exact hc ⟨hpos, by omega⟩

/-! ## Lemmas on activity and on the scan of `Equals` -/

theorem mapGet_some_mem (l : List (Date × Bool)) (d : Date) (v : Bool)
    (h : mapGet l d = some v) : ∃ e ∈ l, e.1 = d := by
  induction l with
  | nil => simp [mapGet] at h
  | cons x rest ih =>
    unfold mapGet at h
    by_cases hx : x.1 = d
    · exact ⟨x, List.mem_cons_self _ _, hx⟩
    · rw [if_neg hx] at h
      obtain ⟨e, he, hd⟩ := ih h
      exact ⟨e, List.mem_cons_of_mem _ he, hd⟩

theorem mapGet_none_of_not_key (l : List (Date × Bool)) (d : Date)
    (h : ∀ e ∈ l, e.1 ≠ d) : mapGet l d = none := by
  cases hg : mapGet l d with
  | none => rfl
  | some v =>
    obtain ⟨e, he, hd⟩ := mapGet_some_mem l d v hg
    exact absurd hd (h e he)

/-- `IsActiveOn` by cases on the map lookup. -/
theorem IsActiveOn_eq (s : Service) (d : Date) :
    s.IsActiveOn d =
      match mapGet s.Exceptions d with
      | some v => v
      | none => s.Daymap (Time.Weekday d.GetTime) && decide (s.Start_date.GetTime ≤ d.GetTime)
          && decide (d.GetTime ≤ s.End_date.GetTime) := by
  unfold Service.IsActiveOn Service.GetExceptionTypeOn
  cases hg : mapGet s.Exceptions d with
  | none =>
    simp only [Time.Before, Time.After]
    have e1 : (!decide (d.GetTime < s.Start_date.GetTime)) = decide (s.Start_date.GetTime ≤ d.GetTime) := by
      by_cases h : d.GetTime < s.Start_date.GetTime
      · simp [h]
      · simp [h]; omega
    have e2 : (!decide (d.GetTime > s.End_date.GetTime)) = decide (d.GetTime ≤ s.End_date.GetTime) := by
      by_cases h : d.GetTime > s.End_date.GetTime
      · simp [h]
      · simp [h]; omega
    rw [e1, e2]
    rfl
  | some v => cases v <;> simp

theorem IsActiveOn_no_exception (s : Service) (d : Date) (h : mapGet s.Exceptions d = none) :
    s.IsActiveOn d = (s.Daymap (Time.Weekday d.GetTime) && decide (s.Start_date.GetTime ≤ d.GetTime)
          && decide (d.GetTime ≤ s.End_date.GetTime)) := by
  rw [IsActiveOn_eq, h]

/-! ### The scan of `Equals` -/

theorem equalsLoop_end (s b : Service) (e1 e2 : Date) (h : e1.GetTime = e2.GetTime) :
    ∀ (fuel : Nat) (d : Date), Service.equalsLoop s b e1 fuel d = Service.equalsLoop s b e2 fuel d := by
  intro fuel
  induction fuel with
  | zero => intro d; rfl
  | succ n ih =>
    intro d
    unfold Service.equalsLoop
    rw [h, ih]

theorem equalsLoop_symm (s b : Service) (e : Date) :
    ∀ (fuel : Nat) (d : Date), Service.equalsLoop s b e fuel d = Service.equalsLoop b s e fuel d := by
  intro fuel
  induction fuel with
  | zero => intro d; rfl
  | succ n ih =>
    intro d
    unfold Service.equalsLoop
    rw [ih]
    have : (s.IsActiveOn d != b.IsActiveOn d) = (b.IsActiveOn d != s.IsActiveOn d) := by
      cases s.IsActiveOn d <;> cases b.IsActiveOn d <;> rfl
    rw [this]

theorem maxDate_succ : GetGtfsDateFromTime (maxDate.GetTime + 1) = minDate := by decide

theorem minDate_valid : minDate.Valid := by decide

/-- One step of the scan from a valid date stays on valid dates and advances by
at most one day (it falls back to `minDate` after `maxDate`). -/
theorem offset_one_valid (d : Date) (hv : d.Valid) :
    (d.GetOffsettedDate 1).Valid ∧ (d.GetOffsettedDate 1).GetTime ≤ d.GetTime + 1 := by
  obtain ⟨r0, r1⟩ := Valid_time_range d hv
  by_cases hmax : d.GetTime + 1 ≤ maxDate.GetTime
  · obtain ⟨v, e⟩ := GetOffsettedDate_valid d 1 hv (by omega) hmax
    exact ⟨v, by omega⟩
  · have hd : d = maxDate :=
      Valid_GetTime_inj d maxDate hv (by decide) (by omega)
    subst hd
    decide

theorem yearDay_nonneg (leap : Bool) (m d : Int) (h1 : 1 ≤ m) (h12 : m ≤ 12) (hd : 1 ≤ d) :
    0 ≤ yearDay leap m d := by
  unfold yearDay
  have ha := daysBefore_mono 0 (m - 1) (by omega) (by omega) (by omega)
  obtain ⟨t0, _⟩ := daysBefore_table
  rw [t0] at ha
  split <;> omega

theorem toInt16_spec (x : Int) :
    -32768 ≤ toInt16 x ∧ toInt16 x ≤ 32767 ∧ ∃ k : Int, toInt16 x = x + 65536 * k := by
  unfold toInt16
  refine ⟨by omega, by omega, -((x + 32768) / 65536), by omega⟩

/-- One step of the scan from any date not after `maxDate - 1` advances by at
least one day. -/
theorem offset_one_time_ge (d : Date) (h : d.GetTime < maxDate.GetTime) :
    d.GetTime + 1 ≤ (d.GetOffsettedDate 1).GetTime := by
  by_cases hs : ((1 : Int) = 1 ∨ (1 : Int) = -1) ∧ d.Day > 1 ∧ d.Day < 27
  · rw [GetOffsettedDate_shortcut d 1 hs, GetTime_setDay]
  · rw [GetOffsettedDate_general d 1 hs]
    by_cases hlow : minDate.GetTime ≤ d.GetTime + 1
    · obtain ⟨y0, y1⟩ := year_of_range _ hlow (by omega)
      rw [(GetGtfsDateFromTime_valid _ y0 y1).2]
    · rw [GetGtfsDateFromTime_eq]
      generalize ht : d.GetTime + 1 = t at hlow
      have hv := civil_valid t
      have hc := timeDate_civil t
      rw [timeDate_of_month _ _ _ hv.1 hv.2.1] at hc
      have hb := yearDay_bounds _ _ _ hv
      have hb2 : yearDay (isLeap (Time.Year t)) (Time.Month t) (Time.Day t) < 366 := by
        have := hb.2
        split at this <;> omega
      obtain ⟨b0, b1⟩ := daysSinceEpoch_bounds
      have hy : Time.Year t < -32768 := by
        by_contra hc2
        have := (daysSinceEpoch_le (-32768) (Time.Year t) (by omega)).1
        omega
      obtain ⟨w0, w1, k, wk⟩ := toInt16_spec (Time.Year t)
      unfold Date.GetTime
      simp only
      rw [timeDate_of_month _ _ _ hv.1 hv.2.1]
      have hn := yearDay_nonneg (isLeap (toInt16 (Time.Year t))) _ _ hv.1 hv.2.1 hv.2.2.1
      have hm := (daysSinceEpoch_le (Time.Year t) (toInt16 (Time.Year t)) (by omega)).1
      omega

theorem offset_one_inRange (d : Date) (h : d.InRange) : (d.GetOffsettedDate 1).InRange := by
  by_cases hs : ((1 : Int) = 1 ∨ (1 : Int) = -1) ∧ d.Day > 1 ∧ d.Day < 27
  · rw [GetOffsettedDate_shortcut d 1 hs]
    unfold Date.InRange at h ⊢
    simp only
    omega
  · rw [GetOffsettedDate_general d 1 hs, GetGtfsDateFromTime_eq]
    have hv := civil_valid (d.GetTime + 1)
    have hd := validMD_le _ _ _ hv
    obtain ⟨w0, w1, _⟩ := toInt16_spec (Time.Year (d.GetTime + 1))
    obtain ⟨h1, h2, h3, h4⟩ := hv
    unfold Date.InRange
    simp only
    omega

/-! ## Lemmas on the scans of `GetFirstActiveDate` and `GetLastActiveDate` -/

theorem minDate_pred : GetGtfsDateFromTime (minDate.GetTime - 1) = maxDate := by decide

theorem yearDay_le (leap : Bool) (m d : Int) (h1 : 1 ≤ m) (h12 : m ≤ 12) (hd : d ≤ 31) :
    yearDay leap m d ≤ 365 := by
  unfold yearDay
  have ha := daysBefore_mono (m - 1) 11 (by omega) (by omega) (by omega)
  obtain ⟨_, _, _, _, _, _, _, _, _, _, _, t11, _⟩ := daysBefore_table
  rw [t11] at ha
  split <;> omega

/-- One backward step of a scan from a valid date stays on valid dates and goes
back by at most one day (it falls forward to `maxDate` before `minDate`). -/
theorem offset_neg_one_valid (d : Date) (hv : d.Valid) :
    (d.GetOffsettedDate (-1)).Valid ∧ d.GetTime - 1 ≤ (d.GetOffsettedDate (-1)).GetTime := by
  obtain ⟨r0, r1⟩ := Valid_time_range d hv
  by_cases hmin : minDate.GetTime ≤ d.GetTime + -1
  · obtain ⟨v, e⟩ := GetOffsettedDate_valid d (-1) hv hmin (by omega)
    exact ⟨v, by omega⟩
  · have hd : d = minDate :=
      Valid_GetTime_inj d minDate hv (by decide) (by omega)
    subst hd
    decide

/-- One backward step of a scan from any date after `minDate` goes back by at
least one day. -/
theorem offset_neg_one_time_le (d : Date) (h : minDate.GetTime < d.GetTime) :
    (d.GetOffsettedDate (-1)).GetTime ≤ d.GetTime - 1 := by
  by_cases hs : ((-1 : Int) = 1 ∨ (-1 : Int) = -1) ∧ d.Day > 1 ∧ d.Day < 27
  · rw [GetOffsettedDate_shortcut d (-1) hs, GetTime_setDay]; omega
  · rw [GetOffsettedDate_general d (-1) hs]
    by_cases hhigh : d.GetTime + -1 ≤ maxDate.GetTime
    · obtain ⟨y0, y1⟩ := year_of_range _ (by omega) hhigh
      rw [(GetGtfsDateFromTime_valid _ y0 y1).2]; omega
    · rw [GetGtfsDateFromTime_eq, show d.GetTime - 1 = d.GetTime + -1 by ring]
      generalize ht : d.GetTime + -1 = t at hhigh
      have hv := civil_valid t
      have hc := timeDate_civil t
      rw [timeDate_of_month _ _ _ hv.1 hv.2.1] at hc
      have hd31 := validMD_le _ _ _ hv
      have hn := yearDay_nonneg (isLeap (Time.Year t)) _ _ hv.1 hv.2.1 hv.2.2.1
      obtain ⟨b0, b1⟩ := daysSinceEpoch_bounds
      have hy : 32767 < Time.Year t := by
        by_contra hc2
        have hb := yearDay_bounds _ _ _ hv
        have hb2 : yearDay (isLeap (Time.Year t)) (Time.Month t) (Time.Day t)
            < yearLen (Time.Year t) := by
          unfold yearLen
          have := hb.2
          split at this <;> simp_all
        have s := daysSinceEpoch_succ (Time.Year t)
        have := (daysSinceEpoch_le (Time.Year t + 1) 32768 (by omega)).1
        omega
      obtain ⟨w0, w1, k, wk⟩ := toInt16_spec (Time.Year t)
      unfold Date.GetTime
      simp only
      rw [timeDate_of_month _ _ _ hv.1 hv.2.1]
      have hu := yearDay_le (isLeap (toInt16 (Time.Year t))) _ _ hv.1 hv.2.1 hd31
      have hm := (daysSinceEpoch_le (toInt16 (Time.Year t)) (Time.Year t) (by omega)).1
      omega

theorem notFound_not_valid : ¬ notFound.Valid := by decide

/-- The forward scan from a valid date over a window that ends before `maxDate`
returns the first active valid date of the window, or `notFound`. -/
theorem firstActiveLoop_total (s : Service) (endD : Date)
    (hend : endD.GetTime < maxDate.GetTime) :
    ∀ (n : Nat) (d : Date), d.Valid → endD.GetTime - d.GetTime < n →
      ∃ r : Date, Service.firstActiveLoop s endD (n + 1) d = some r ∧
        ((r = notFound ∧ ∀ x : Date, x.Valid → d.GetTime ≤ x.GetTime →
            x.GetTime ≤ endD.GetTime → s.IsActiveOn x = false) ∨
          (r.Valid ∧ d.GetTime ≤ r.GetTime ∧ r.GetTime ≤ endD.GetTime ∧ s.IsActiveOn r = true ∧
            ∀ x : Date, x.Valid → d.GetTime ≤ x.GetTime → x.GetTime < r.GetTime →
              s.IsActiveOn x = false)) := by
  intro n
  induction n with
  | zero =>
    intro d _ hlt
    refine ⟨notFound, ?_, Or.inl ⟨rfl, ?_⟩⟩
    · unfold Service.firstActiveLoop
      have : Time.After d.GetTime endD.GetTime = true := by
        simp only [Time.After, decide_eq_true_eq]; omega
      rw [if_pos this]; rfl
    · intro x _ h1 h2; omega
  | succ n ih =>
    intro d hv hlt
    unfold Service.firstActiveLoop
    by_cases hafter : d.GetTime > endD.GetTime
    · refine ⟨notFound, ?_, Or.inl ⟨rfl, ?_⟩⟩
      · have : Time.After d.GetTime endD.GetTime = true := by
          simp only [Time.After, decide_eq_true_eq]; omega
        rw [if_pos this]; rfl
      · intro x _ h1 h2; omega
    · have h1 : Time.After d.GetTime endD.GetTime = false := by
        simp only [Time.After, decide_eq_false_iff_not]; omega
      rw [h1]
      simp only [Bool.false_eq_true, if_false]
      by_cases hact : s.IsActiveOn d = true
      · rw [if_pos hact]
        refine ⟨d, rfl, Or.inr ⟨hv, le_refl _, by omega, hact, ?_⟩⟩
        intro x _ h1 h2; omega
      · rw [if_neg hact]
        obtain ⟨nv, nt⟩ := GetOffsettedDate_valid d 1 hv
          (by have := (Valid_time_range d hv).1; omega) (by omega)
        obtain ⟨r, hr, hcase⟩ := ih (d.GetOffsettedDate 1) nv (by omega)
        refine ⟨r, hr, ?_⟩
        have hd : ∀ x : Date, x.Valid → x.GetTime = d.GetTime → s.IsActiveOn x = false := by
          intro x hx hxd
          have : x = d := Valid_GetTime_inj x d hx hv hxd
          subst this
          simpa using hact
        rcases hcase with ⟨e, hall⟩ | ⟨rv, r1, r2, ra, hall⟩
        · refine Or.inl ⟨e, ?_⟩
          intro x hx hdx hxe
          by_cases hxd : x.GetTime = d.GetTime
          · exact hd x hx hxd
          · exact hall x hx (by omega) hxe
        · refine Or.inr ⟨rv, by omega, r2, ra, ?_⟩
          intro x hx hdx hxr
          by_cases hxd : x.GetTime = d.GetTime
          · exact hd x hx hxd
          · exact hall x hx (by omega) hxr

/-- The backward scan from a valid date over a window that starts after
`minDate` returns the last active valid date of the window, or `notFound`. -/
theorem lastActiveLoop_total (s : Service) (start : Date)
    (hstart : minDate.GetTime < start.GetTime) :
    ∀ (n : Nat) (d : Date), d.Valid → d.GetTime - start.GetTime < n →
      ∃ r : Date, Service.lastActiveLoop s start (n + 1) d = some r ∧
        ((r = notFound ∧ ∀ x : Date, x.Valid → start.GetTime ≤ x.GetTime →
            x.GetTime ≤ d.GetTime → s.IsActiveOn x = false) ∨
          (r.Valid ∧ start.GetTime ≤ r.GetTime ∧ r.GetTime ≤ d.GetTime ∧ s.IsActiveOn r = true ∧
            ∀ x : Date, x.Valid → r.GetTime < x.GetTime → x.GetTime ≤ d.GetTime →
              s.IsActiveOn x = false)) := by
  intro n
  induction n with
  | zero =>
    intro d _ hlt
    refine ⟨notFound, ?_, Or.inl ⟨rfl, ?_⟩⟩
    · unfold Service.lastActiveLoop
      have : Time.Before d.GetTime start.GetTime = true := by
        simp only [Time.Before, decide_eq_true_eq]; omega
      rw [if_pos this]; rfl
    · intro x _ h1 h2; omega
  | succ n ih =>
    intro d hv hlt
    unfold Service.lastActiveLoop
    by_cases hbefore : d.GetTime < start.GetTime
    · refine ⟨notFound, ?_, Or.inl ⟨rfl, ?_⟩⟩
      · have : Time.Before d.GetTime start.GetTime = true := by
          simp only [Time.Before, decide_eq_true_eq]; omega
        rw [if_pos this]; rfl
      · intro x _ h1 h2; omega
    · have h1 : Time.Before d.GetTime start.GetTime = false := by
        simp only [Time.Before, decide_eq_false_iff_not]; omega
      rw [h1]
      simp only [Bool.false_eq_true, if_false]
      by_cases hact : s.IsActiveOn d = true
      · rw [if_pos hact]
        refine ⟨d, rfl, Or.inr ⟨hv, by omega, le_refl _, hact, ?_⟩⟩
        intro x _ h1 h2; omega
      · rw [if_neg hact]
        obtain ⟨nv, nt⟩ := GetOffsettedDate_valid d (-1) hv (by omega)
          (by have := (Valid_time_range d hv).2; omega)
        obtain ⟨r, hr, hcase⟩ := ih (d.GetOffsettedDate (-1)) nv (by omega)
        refine ⟨r, hr, ?_⟩
        have hd : ∀ x : Date, x.Valid → x.GetTime = d.GetTime → s.IsActiveOn x = false := by
          intro x hx hxd
          have : x = d := Valid_GetTime_inj x d hx hv hxd
          subst this
          simpa using hact
        rcases hcase with ⟨e, hall⟩ | ⟨rv, r1, r2, ra, hall⟩
        · refine Or.inl ⟨e, ?_⟩
          intro x hx hsx hxd'
          by_cases hxd : x.GetTime = d.GetTime
          · exact hd x hx hxd
          · exact hall x hx hsx (by omega)
        · refine Or.inr ⟨rv, r1, by omega, ra, ?_⟩
          intro x hx hrx hxd'
          by_cases hxd : x.GetTime = d.GetTime
          · exact hd x hx hxd
          · exact hall x hx hrx (by omega)

/-! ### Termination from any start -/

theorem equalsLoop_terminates (s b : Service) (endA : Date)
    (hend : endA.GetTime < maxDate.GetTime) :
    ∀ (n : Nat) (d : Date), endA.GetTime - d.GetTime < n →
      (Service.equalsLoop s b endA (n + 1) d).isSome = true := by
  intro n
  induction n with
  | zero =>
    intro d hlt
    unfold Service.equalsLoop
    have : Time.After d.GetTime endA.GetTime = true := by
      simp only [Time.After, decide_eq_true_eq]; omega
    rw [if_pos this]; rfl
  | succ n ih =>
    intro d hlt
    unfold Service.equalsLoop
    split
    · rfl
    · rename_i hafter
      split
      · rfl
      · have hle : d.GetTime ≤ endA.GetTime := by
          simp only [Time.After, decide_eq_true_eq] at hafter; omega
        have := offset_one_time_ge d (by omega)
        exact ih _ (by omega)

theorem firstActiveLoop_terminates (s : Service) (endD : Date)
    (hend : endD.GetTime < maxDate.GetTime) :
    ∀ (n : Nat) (d : Date), endD.GetTime - d.GetTime < n →
      (Service.firstActiveLoop s endD (n + 1) d).isSome = true := by
  intro n
  induction n with
  | zero =>
    intro d hlt
    unfold Service.firstActiveLoop
    have : Time.After d.GetTime endD.GetTime = true := by
      simp only [Time.After, decide_eq_true_eq]; omega
    rw [if_pos this]; rfl
  | succ n ih =>
    intro d hlt
    unfold Service.firstActiveLoop
    split
    · rfl
    · rename_i hafter
      split
      · rfl
      · have hle : d.GetTime ≤ endD.GetTime := by
          simp only [Time.After, decide_eq_true_eq] at hafter; omega
        have := offset_one_time_ge d (by omega)
        exact ih _ (by omega)

theorem lastActiveLoop_terminates (s : Service) (start : Date)
    (hstart : minDate.GetTime < start.GetTime) :
    ∀ (n : Nat) (d : Date), d.GetTime - start.GetTime < n →
      (Service.lastActiveLoop s start (n + 1) d).isSome = true := by
  intro n
  induction n with
  | zero =>
    intro d hlt
    unfold Service.lastActiveLoop
    have : Time.Before d.GetTime start.GetTime = true := by
      simp only [Time.Before, decide_eq_true_eq]; omega
    rw [if_pos this]; rfl
  | succ n ih =>
    intro d hlt
    unfold Service.lastActiveLoop
    split
    · rfl
    · rename_i hbefore
      split
      · rfl
      · have hle : start.GetTime ≤ d.GetTime := by
          simp only [Time.Before, decide_eq_true_eq] at hbefore; omega
        have := offset_neg_one_time_le d (by omega)
        exact ih _ (by omega)

/-! ### Scans that never end -/

/-- On a service that is never active, the forward scan towards an end not
before `maxDate` does not return, however many iterations are allowed. -/
theorem firstActiveLoop_diverges (s : Service) (endD : Date)
    (hend : maxDate.GetTime ≤ endD.GetTime) (hs : ∀ x : Date, s.IsActiveOn x = false) :
    ∀ (fuel : Nat) (d : Date), d.Valid → Service.firstActiveLoop s endD fuel d = none := by
  intro fuel
  induction fuel with
  | zero => intro d _; rfl
  | succ n ih =>
    intro d hv
    unfold Service.firstActiveLoop
    have h1 : Time.After d.GetTime endD.GetTime = false := by
      have := (Valid_time_range d hv).2
      simp only [Time.After, decide_eq_false_iff_not]; omega
    rw [h1, hs d]
    simp only [Bool.false_eq_true, if_false]
    exact ih _ (offset_one_valid d hv).1

/-- On a service that is never active, the backward scan towards a start not
after `minDate` does not return. -/
theorem lastActiveLoop_diverges (s : Service) (start : Date)
    (hstart : start.GetTime ≤ minDate.GetTime) (hs : ∀ x : Date, s.IsActiveOn x = false) :
    ∀ (fuel : Nat) (d : Date), d.Valid → Service.lastActiveLoop s start fuel d = none := by
  intro fuel
  induction fuel with
  | zero => intro d _; rfl
  | succ n ih =>
    intro d hv
    unfold Service.lastActiveLoop
    have h1 : Time.Before d.GetTime start.GetTime = false := by
      have := (Valid_time_range d hv).1
      simp only [Time.Before, decide_eq_false_iff_not]; omega
    rw [h1, hs d]
    simp only [Bool.false_eq_true, if_false]
    exact ih _ (offset_neg_one_valid d hv).1

/-- On services that agree on every date, the scan of `Equals` towards an end
not before `maxDate` does not return. -/
theorem equalsLoop_diverges (s b : Service) (endA : Date)
    (hend : maxDate.GetTime ≤ endA.GetTime)
    (hs : ∀ x : Date, s.IsActiveOn x = b.IsActiveOn x) :
    ∀ (fuel : Nat) (d : Date), d.Valid → Service.equalsLoop s b endA fuel d = none := by
  intro fuel
  induction fuel with
  | zero => intro d _; rfl
  | succ n ih =>
    intro d hv
    unfold Service.equalsLoop
    have h1 : Time.After d.GetTime endA.GetTime = false := by
      have := (Valid_time_range d hv).2
      simp only [Time.After, decide_eq_false_iff_not]; omega
    have h2 : (s.IsActiveOn d != b.IsActiveOn d) = false := by rw [hs d]; simp
    rw [h1, h2]
    simp only [Bool.false_eq_true, if_false]
    exact ih _ (offset_one_valid d hv).1

/-! ## Lemmas on the exception map -/

theorem mapGet_mapSet_same (m : List (Date × Bool)) (d : Date) (v : Bool) :
    mapGet (mapSet m d v) d = some v := by
  induction m with
  | nil => simp [mapSet, mapGet]
  | cons x rest ih =>
    unfold mapSet
    by_cases hx : x.1 = d
    · rw [if_pos hx]; simp [mapGet]
    · rw [if_neg hx]; unfold mapGet; rw [if_neg hx]; exact ih

theorem mapGet_mapSet_other (m : List (Date × Bool)) (d e : Date) (v : Bool) (h : e ≠ d) :
    mapGet (mapSet m d v) e = mapGet m e := by
  induction m with
  | nil => simp [mapSet, mapGet, Ne.symm h]
  | cons x rest ih =>
    unfold mapSet
    by_cases hx : x.1 = d
    · rw [if_pos hx]
      have h1 : ¬ x.1 = e := by rw [hx]; exact Ne.symm h
      simp [mapGet, h1, Ne.symm h]
    · rw [if_neg hx]
      unfold mapGet
      by_cases hxe : x.1 = e
      · rw [if_pos hxe, if_pos hxe]
      · rw [if_neg hxe, if_neg hxe]; exact ih

/-! ## Lemmas on the order of enumeration -/

theorem firstLoop_perm (l l2 : List (Date × Bool)) (hp : l.Perm l2)
    (hk : ∀ e ∈ l, e.1.Year ≠ 0)
    (hinj : ∀ e ∈ l, ∀ f ∈ l, e.1.GetTime = f.1.GetTime → e.1 = f.1) :
    l.foldl firstStep ⟨0, 0, 0⟩ = l2.foldl firstStep ⟨0, 0, 0⟩ := by
  by_cases hne : l = []
  · subst hne
    rw [List.Perm.eq_nil (List.Perm.symm hp)]
  · have hne2 : l2 ≠ [] := by
      intro h2; rw [h2] at hp; exact hne (List.Perm.eq_nil hp)
    have hk2 : ∀ e ∈ l2, e.1.Year ≠ 0 := fun e he => hk e ((List.Perm.mem_iff hp).2 he)
    obtain ⟨⟨e, he, hm⟩, hall, _⟩ := firstLoop_spec l hne hk
    obtain ⟨⟨f, hf, hm2⟩, hall2, _⟩ := firstLoop_spec l2 hne2 hk2
    have hf1 : f ∈ l := (List.Perm.mem_iff hp).2 hf
    have he2 : e ∈ l2 := (List.Perm.mem_iff hp).1 he
    have h1 := hall f hf1
    have h2 := hall2 e he2
    rw [← hm] at h1
    rw [← hm2] at h2
    rw [← hm, ← hm2]
    exact hinj e he f hf1 (by omega)

theorem lastLoop_perm (l l2 : List (Date × Bool)) (hp : l.Perm l2)
    (hk : ∀ e ∈ l, e.1.Year ≠ 0)
    (hinj : ∀ e ∈ l, ∀ f ∈ l, e.1.GetTime = f.1.GetTime → e.1 = f.1) :
    l.foldl lastStep ⟨0, 0, 0⟩ = l2.foldl lastStep ⟨0, 0, 0⟩ := by
  by_cases hne : l = []
  · subst hne
    rw [List.Perm.eq_nil (List.Perm.symm hp)]
  · have hne2 : l2 ≠ [] := by
      intro h2; rw [h2] at hp; exact hne (List.Perm.eq_nil hp)
    have hk2 : ∀ e ∈ l2, e.1.Year ≠ 0 := fun e he => hk e ((List.Perm.mem_iff hp).2 he)
    obtain ⟨⟨e, he, hm⟩, hall, _⟩ := lastLoop_spec l hne hk
    obtain ⟨⟨f, hf, hm2⟩, hall2, _⟩ := lastLoop_spec l2 hne2 hk2
    have hf1 : f ∈ l := (List.Perm.mem_iff hp).2 hf
    have he2 : e ∈ l2 := (List.Perm.mem_iff hp).1 he
    have h1 := hall f hf1
    have h2 := hall2 e he2
    rw [← hm] at h1
    rw [← hm2] at h2
    rw [← hm, ← hm2]
    exact hinj e he f hf1 (by omega)

/-! ## Lemmas on `hexToRGB` -/

theorem hexParse_signed : hexParse [45, 70] = some (((-15 : Int) : ℚ) / 255) := by
  have h : parseInt16 [45, 70] = some (-15) := by decide
  simp only [hexParse, h]

theorem hexToRGB_signedHex :
    hexToRGB signedHex
      = ⟨((-15 : Int) : ℚ) / 255, ((-15 : Int) : ℚ) / 255, ((-15 : Int) : ℚ) / 255, false⟩ := by
  have h0 : signedHex.length = 6 := by decide
  have h1 : signedHex.take 2 = [45, 70] := by decide
  have h2 : (signedHex.drop 2).take 2 = [45, 70] := by decide
  have h3 : (signedHex.drop 4).take 2 = [45, 70] := by decide
  unfold hexToRGB
  rw [if_neg (by rw [h0]; decide), h1, h2, h3]
  simp only [hexParse_signed]

theorem digitVal_hexDigit :
    ∀ c : Nat, c < 103 → isHexDigit c = true →
      ∃ v : Nat, digitVal c = some v ∧ v < 16 ∧ c ≠ 43 ∧ c ≠ 45 := by
  decide

theorem isHexDigit_lt (c : Nat) (h : isHexDigit c = true) : c < 103 := by
  simp only [isHexDigit, Bool.or_eq_true, Bool.and_eq_true, decide_eq_true_eq] at h
  omega

/-- Two hexadecimal digits parse to a channel within the normalized range. -/
theorem hexParse_hexDigits (a b : Nat) (ha : isHexDigit a = true) (hb : isHexDigit b = true) :
    ∃ v : ℚ, hexParse [a, b] = some v ∧ 0 ≤ v ∧ v ≤ 1 := by
  obtain ⟨va, ea, la, a1, a2⟩ := digitVal_hexDigit a (isHexDigit_lt a ha) ha
  obtain ⟨vb, eb, lb, _, _⟩ := digitVal_hexDigit b (isHexDigit_lt b hb) hb
  have hp : parseInt16 [a, b] = some ((va * 16 + vb : Nat) : Int) := by
    simp [parseInt16, parseUint16, parseDigits, a1, a2, ea, eb, Nat.not_le.2 la, Nat.not_le.2 lb]
  refine ⟨(((va * 16 + vb : Nat) : Int) : ℚ) / 255, ?_, ?_, ?_⟩
  · simp only [hexParse, hp]
  · positivity
  · rw [div_le_one (by norm_num)]
    have : va * 16 + vb ≤ 255 := by omega
    exact_mod_cast this

/-- On six hexadecimal digits `hexToRGB` returns no error and channels within
the normalized range. -/
theorem hexToRGB_hexDigits (hex : List Nat) (hlen : hex.length = 6)
    (hall : ∀ c ∈ hex, isHexDigit c = true) :
    (hexToRGB hex).err = false ∧ 0 ≤ (hexToRGB hex).r ∧ (hexToRGB hex).r ≤ 1 ∧
      0 ≤ (hexToRGB hex).g ∧ (hexToRGB hex).g ≤ 1 ∧
      0 ≤ (hexToRGB hex).b ∧ (hexToRGB hex).b ≤ 1 := by
  match hex, hlen, hall with
  | [a, b, c, d, e, f], _, hall =>
    obtain ⟨r, hr, r0, r1⟩ := hexParse_hexDigits a b (hall a (by simp)) (hall b (by simp))
    obtain ⟨g, hg, g0, g1⟩ := hexParse_hexDigits c d (hall c (by simp)) (hall d (by simp))
    obtain ⟨bl, hbl, b0, b1⟩ := hexParse_hexDigits e f (hall e (by simp)) (hall f (by simp))
    have h1 : List.take 2 [a, b, c, d, e, f] = [a, b] := rfl
    have h2 : List.take 2 (List.drop 2 [a, b, c, d, e, f]) = [c, d] := rfl
    have h3 : List.take 2 (List.drop 4 [a, b, c, d, e, f]) = [e, f] := rfl
    unfold hexToRGB
    rw [if_neg (by simp), h1, h2, h3]
    simp only [hr, hg, hbl]
    exact ⟨trivial, r0, r1, g0, g1, b0, b1⟩

/-- A string that does not have six bytes is an error. -/
theorem hexToRGB_length (hex : List Nat) (hlen : hex.length ≠ 6) : (hexToRGB hex).err = true := by
  unfold hexToRGB
  rw [if_pos hlen]

/-! ## Lemmas on the order of the `range` loops -/

theorem ranged_storedOrder (s : Service) (k : Nat) : s.ranged storedOrder k = s := rfl

theorem storedOrder_fair : RangeOrder.Fair storedOrder := fun _ _ => List.Perm.refl _

theorem reverseOrder_fair : RangeOrder.Fair reverseOrder := fun _ m => List.reverse_perm m

/-- A map with at most one entry has one order only. -/
theorem ranged_short (s : Service) (ord : RangeOrder) (k : Nat) (hf : RangeOrder.Fair ord)
    (h : s.Exceptions.length ≤ 1) : s.ranged ord k = s := by
  have hp := hf k s.Exceptions
  have e : ord k s.Exceptions = s.Exceptions := by
    match hs : s.Exceptions with
    | [] => rw [hs] at hp; exact List.Perm.eq_nil hp
    | [x] => rw [hs] at hp; exact List.perm_singleton.1 hp
    | _ :: _ :: _ => rw [hs] at h; simp at h
  unfold Service.ranged
  rw [e]

/-- With keys of nonzero year on pairwise different days the first defined date
is the same in every order. -/
theorem ranged_first (s : Service) (ord : RangeOrder) (k : Nat) (hf : RangeOrder.Fair ord)
    (hk : s.KeysDistinct) : (s.ranged ord k).GetFirstDefinedDate = s.GetFirstDefinedDate := by
  unfold Service.GetFirstDefinedDate Service.ranged
  simp only
  rw [← firstLoop_perm s.Exceptions (ord k s.Exceptions) (hf k s.Exceptions).symm hk.1 hk.2]

theorem ranged_last (s : Service) (ord : RangeOrder) (k : Nat) (hf : RangeOrder.Fair ord)
    (hk : s.KeysDistinct) : (s.ranged ord k).GetLastDefinedDate = s.GetLastDefinedDate := by
  unfold Service.GetLastDefinedDate Service.ranged
  simp only
  rw [← lastLoop_perm s.Exceptions (ord k s.Exceptions) (hf k s.Exceptions).symm hk.1 hk.2]

theorem WellFormed_keysDistinct (s : Service) (h : s.WellFormed) : s.KeysDistinct :=
  ⟨fun e he => (h.1 e he).2,
    fun e he f hf ht => Valid_GetTime_inj e.1 f.1 (h.1 e he).1 (h.1 f hf).1 ht⟩

/-! ## Lemmas on `Equals` -/

theorem Equals_of_ne (fuel : Nat) (ord : RangeOrder) (heap : Nat → Service) (p q : Nat)
    (h : p ≠ q) :
    Service.Equals fuel ord heap p q =
      if Time.After ((heap p).ranged ord 0).GetFirstDefinedDate.GetTime
          ((heap q).ranged ord 1).GetLastDefinedDate.GetTime then
        some false
      else if Time.After ((heap q).ranged ord 2).GetFirstDefinedDate.GetTime
          ((heap p).ranged ord 3).GetLastDefinedDate.GetTime
      then some false
      else Service.equalsLoop (heap p) (heap q) (Service.windowEnd ord (heap p) (heap q)) fuel
        (Service.windowStart ord (heap p) (heap q)) := by
  unfold Service.Equals Service.windowEnd Service.windowStart
  rw [if_neg h]

/-- When the four boundary dates of the call are those of the stored order,
the call runs as in the stored order. -/
theorem Equals_eq_stored (fuel : Nat) (ord : RangeOrder) (heap : Nat → Service) (p q : Nat)
    (h0 : ((heap p).ranged ord 0).GetFirstDefinedDate = (heap p).GetFirstDefinedDate)
    (h1 : ((heap q).ranged ord 1).GetLastDefinedDate = (heap q).GetLastDefinedDate)
    (h2 : ((heap q).ranged ord 2).GetFirstDefinedDate = (heap q).GetFirstDefinedDate)
    (h3 : ((heap p).ranged ord 3).GetLastDefinedDate = (heap p).GetLastDefinedDate) :
    Service.Equals fuel ord heap p q = Service.Equals fuel storedOrder heap p q := by
  unfold Service.Equals
  simp only [h0, h1, h2, h3, ranged_storedOrder]

/-- On maps with at most one entry every fair order runs as the stored order. -/
theorem Equals_short (fuel : Nat) (ord : RangeOrder) (heap : Nat → Service) (p q : Nat)
    (hf : RangeOrder.Fair ord) (hp : (heap p).Exceptions.length ≤ 1)
    (hq : (heap q).Exceptions.length ≤ 1) :
    Service.Equals fuel ord heap p q = Service.Equals fuel storedOrder heap p q :=
  Equals_eq_stored fuel ord heap p q (by rw [ranged_short _ ord 0 hf hp])
    (by rw [ranged_short _ ord 1 hf hq]) (by rw [ranged_short _ ord 2 hf hq])
    (by rw [ranged_short _ ord 3 hf hp])

/-- With keys of nonzero year on pairwise different days every fair order runs
as the stored order. -/
theorem Equals_keysDistinct (fuel : Nat) (ord : RangeOrder) (heap : Nat → Service) (p q : Nat)
    (hf : RangeOrder.Fair ord) (hp : (heap p).KeysDistinct) (hq : (heap q).KeysDistinct) :
    Service.Equals fuel ord heap p q = Service.Equals fuel storedOrder heap p q :=
  Equals_eq_stored fuel ord heap p q (ranged_first _ ord 0 hf hp) (ranged_last _ ord 1 hf hq)
    (ranged_first _ ord 2 hf hq) (ranged_last _ ord 3 hf hp)

theorem windowStart_time (ord : RangeOrder) (s b : Service) :
    (Service.windowStart ord s b).GetTime
      = min (s.ranged ord 0).GetFirstDefinedDate.GetTime
          (b.ranged ord 2).GetFirstDefinedDate.GetTime := by
  unfold Service.windowStart Time.After
  by_cases h : (s.ranged ord 0).GetFirstDefinedDate.GetTime
      > (b.ranged ord 2).GetFirstDefinedDate.GetTime
  · simp only [h, decide_True, if_true]; omega
  · simp only [h, decide_False, Bool.false_eq_true, if_false]; omega

theorem windowEnd_time (ord : RangeOrder) (s b : Service) :
    (Service.windowEnd ord s b).GetTime
      = max (s.ranged ord 3).GetLastDefinedDate.GetTime
          (b.ranged ord 1).GetLastDefinedDate.GetTime := by
  unfold Service.windowEnd Time.Before
  by_cases h : (s.ranged ord 3).GetLastDefinedDate.GetTime
      < (b.ranged ord 1).GetLastDefinedDate.GetTime
  · simp only [h, decide_True, if_true]; omega
  · simp only [h, decide_False, Bool.false_eq_true, if_false]; omega

theorem windowStart_cases (ord : RangeOrder) (s b : Service) :
    Service.windowStart ord s b = (s.ranged ord 0).GetFirstDefinedDate ∨
      Service.windowStart ord s b = (b.ranged ord 2).GetFirstDefinedDate := by
  unfold Service.windowStart
  split
  · exact Or.inr rfl
  · exact Or.inl rfl

/-- A scan from a valid date that runs to its end has compared the services on
every valid date of the window. -/
theorem equalsLoop_sound (s b : Service) (endA : Date) :
    ∀ (fuel : Nat) (d : Date), d.Valid → Service.equalsLoop s b endA fuel d = some true →
      ∀ x : Date, x.Valid → d.GetTime ≤ x.GetTime → x.GetTime ≤ endA.GetTime →
        s.IsActiveOn x = b.IsActiveOn x := by
  intro fuel
  induction fuel with
  | zero => intro d _ h; simp [Service.equalsLoop] at h
  | succ n ih =>
    intro d hv h x hx hdx hxe
    unfold Service.equalsLoop at h
    have h1 : Time.After d.GetTime endA.GetTime = false := by
      simp only [Time.After, decide_eq_false_iff_not]; omega
    rw [h1] at h
    simp only [Bool.false_eq_true, if_false] at h
    by_cases hne : (s.IsActiveOn d != b.IsActiveOn d) = true
    · rw [if_pos hne] at h; simp at h
    · rw [if_neg hne] at h
      obtain ⟨nv, nt⟩ := offset_one_valid d hv
      by_cases hxd : x.GetTime = d.GetTime
      · have : x = d := Valid_GetTime_inj x d hx hv hxd
        subst this
        simpa using hne
      · exact ih _ nv h x hx (by omega) hxe

/-- A scan from a valid date over a window that ends before `maxDate`
terminates, and it returns true exactly when the services agree on every valid
date of the window. -/
theorem equalsLoop_total (s b : Service) (endA : Date) (hend : endA.GetTime < maxDate.GetTime) :
    ∀ (n : Nat) (d : Date), d.Valid → endA.GetTime - d.GetTime < n →
      ∃ r : Bool, Service.equalsLoop s b endA (n + 1) d = some r ∧
        (r = true ↔ ∀ x : Date, x.Valid → d.GetTime ≤ x.GetTime → x.GetTime ≤ endA.GetTime →
          s.IsActiveOn x = b.IsActiveOn x) := by
  intro n
  induction n with
  | zero =>
    intro d _ hlt
    refine ⟨true, ?_, ?_⟩
    · unfold Service.equalsLoop
      have : Time.After d.GetTime endA.GetTime = true := by
        simp only [Time.After, decide_eq_true_eq]; omega
      rw [if_pos this]
    · simp only [true_iff]
      intro x _ h1 h2
      omega
  | succ n ih =>
    intro d hv hlt
    unfold Service.equalsLoop
    by_cases hafter : d.GetTime > endA.GetTime
    · refine ⟨true, ?_, ?_⟩
      · have : Time.After d.GetTime endA.GetTime = true := by
          simp only [Time.After, decide_eq_true_eq]; omega
        rw [if_pos this]
      · simp only [true_iff]
        intro x _ h1 h2
        omega
    · have h1 : Time.After d.GetTime endA.GetTime = false := by
        simp only [Time.After, decide_eq_false_iff_not]; omega
      rw [h1]
      simp only [Bool.false_eq_true, if_false]
      by_cases hne : (s.IsActiveOn d != b.IsActiveOn d) = true
      · rw [if_pos hne]
        refine ⟨false, rfl, ?_⟩
        simp only [Bool.false_eq_true, false_iff]
        intro hall
        have := hall d hv (le_refl _) (by omega)
        rw [this] at hne
        simp at hne
      · rw [if_neg hne]
        obtain ⟨nv, nt⟩ := GetOffsettedDate_valid d 1 hv
          (by have := (Valid_time_range d hv).1; omega) (by omega)
        obtain ⟨r, hr, hiff⟩ := ih (d.GetOffsettedDate 1) nv (by omega)
        refine ⟨r, hr, ?_⟩
        rw [hiff]
        constructor
        · intro hall x hx hdx hxe
          by_cases hxd : x.GetTime = d.GetTime
          · have : x = d := Valid_GetTime_inj x d hx hv hxd
            subst this
            simpa using hne
          · exact hall x hx (by omega) hxe
        · intro hall x hx hdx hxe
          exact hall x hx (by omega) hxe

theorem foldl_firstStep_mem (l : List (Date × Bool)) :
    ∀ acc : Date, l.foldl firstStep acc = acc ∨ ∃ e ∈ l, e.1 = l.foldl firstStep acc := by
  induction l with
  | nil => intro acc; exact Or.inl rfl
  | cons x rest ih =>
    intro acc
    rw [List.foldl_cons]
    have hs : firstStep acc x = acc ∨ firstStep acc x = x.1 := by
      unfold firstStep; split
      · exact Or.inr rfl
      · exact Or.inl rfl
    rcases ih (firstStep acc x) with h | ⟨e, he, h⟩
    · rcases hs with hs | hs
      · exact Or.inl (h.trans hs)
      · exact Or.inr ⟨x, List.mem_cons_self _ _, (h.trans hs).symm⟩
    · exact Or.inr ⟨e, List.mem_cons_of_mem _ he, h⟩

theorem GetFirstDefinedDate_inRange (s : Service) (h : s.InRange) :
    s.GetFirstDefinedDate.InRange := by
  obtain ⟨hs, _, hk⟩ := h
  unfold Service.GetFirstDefinedDate
  simp only
  split
  · exact hs
  · rcases foldl_firstStep_mem s.Exceptions ⟨0, 0, 0⟩ with h | ⟨e, he, h⟩
    · rw [h]; decide
    · rw [← h]; exact hk e he

theorem WellFormed_first_valid (s : Service) (h : s.WellFormed) : s.GetFirstDefinedDate.Valid := by
  obtain ⟨hk, hc⟩ := h
  by_cases hne : s.Exceptions = []
  · rw [GetFirstDefinedDate_nil s hne]
    rcases hc with ⟨hv, _⟩ | ⟨_, _, _, hn⟩
    · exact hv
    · exact absurd hne hn
  · obtain ⟨hm, _, _⟩ := GetFirstDefinedDate_spec s hne (fun e he => (hk e he).2)
    rcases hm with ⟨e, he, hm⟩ | ⟨hpos, hm⟩
    · rw [← hm]; exact (hk e he).1
    · rw [hm]
      rcases hc with ⟨hv, _⟩ | ⟨h0, _⟩
      · exact hv
      · omega

/-- A well-formed service is inactive on every date before its first and after
its last defined date. -/
theorem WellFormed_inactive_outside (s : Service) (h : s.WellFormed) (x : Date)
    (hx : x.GetTime < s.GetFirstDefinedDate.GetTime ∨ s.GetLastDefinedDate.GetTime < x.GetTime) :
    s.IsActiveOn x = false := by
  obtain ⟨hk, hc⟩ := h
  have hk0 : ∀ e ∈ s.Exceptions, e.1.Year ≠ 0 := fun e he => (hk e he).2
  by_cases hne : s.Exceptions = []
  · rw [GetFirstDefinedDate_nil s hne, GetLastDefinedDate_nil s hne] at hx
    rw [IsActiveOn_no_exception s x (by rw [hne]; rfl)]
    rcases hx with hx | hx
    · have : decide (s.Start_date.GetTime ≤ x.GetTime) = false := by
        simp only [decide_eq_false_iff_not]; omega
      rw [this]; simp
    · have : decide (x.GetTime ≤ s.End_date.GetTime) = false := by
        simp only [decide_eq_false_iff_not]; omega
      rw [this]; simp
  · obtain ⟨_, hf, hfs⟩ := GetFirstDefinedDate_spec s hne hk0
    obtain ⟨_, hl, hls⟩ := GetLastDefinedDate_spec s hne hk0
    have hnone : mapGet s.Exceptions x = none := by
      apply mapGet_none_of_not_key
      intro e he hex
      have h1 := hf e he
      have h2 := hl e he
      rw [hex] at h1 h2
      omega
    rw [IsActiveOn_no_exception s x hnone]
    rcases hc with ⟨_, hsp, _, hep⟩ | ⟨_, _, hd, _⟩
    · have h1 := hfs hsp
      have h2 := hls hep
      rcases hx with hx | hx
      · have : decide (s.Start_date.GetTime ≤ x.GetTime) = false := by
          simp only [decide_eq_false_iff_not]; omega
        rw [this]; simp
      · have : decide (x.GetTime ≤ s.End_date.GetTime) = false := by
          simp only [decide_eq_false_iff_not]; omega
        rw [this]; simp
    · rw [hd]; simp

theorem IsEmpty_iff (s : Service) :
    s.IsEmpty = true ↔ (∀ i, s.Daymap i = false) ∧ s.Exceptions = [] := by
  unfold Service.IsEmpty
  simp only [Bool.and_eq_true, beq_iff_eq, List.length_eq_zero]
  constructor
  · rintro ⟨⟨⟨⟨⟨⟨⟨h0, h1⟩, h2⟩, h3⟩, h4⟩, h5⟩, h6⟩, he⟩
    refine ⟨?_, he⟩
    intro i
    fin_cases i <;> assumption
  · rintro ⟨hd, he⟩
    exact ⟨⟨⟨⟨⟨⟨⟨hd 0, hd 1⟩, hd 2⟩, hd 3⟩, hd 4⟩, hd 5⟩, hd 6⟩, he⟩

theorem IsEmpty_inactive (s : Service) (h : s.IsEmpty = true) (x : Date) :
    s.IsActiveOn x = false := by
  obtain ⟨hd, he⟩ := (IsEmpty_iff s).1 h
  rw [IsActiveOn_no_exception s x (by rw [he]; rfl), hd]
  simp

/-! ## Scans over a window without an active date -/

/-- When no `Date` value of the window is active, the forward scan from any
start in the window ends with `notFound`. -/
theorem firstActiveLoop_none (s : Service) (start endD : Date)
    (hend : endD.GetTime < maxDate.GetTime)
    (hs : ∀ x : Date, start.GetTime ≤ x.GetTime → x.GetTime ≤ endD.GetTime →
      s.IsActiveOn x = false) :
    ∀ (n : Nat) (d : Date), start.GetTime ≤ d.GetTime → endD.GetTime - d.GetTime < n →
      Service.firstActiveLoop s endD (n + 1) d = some notFound := by
  intro n
  induction n with
  | zero =>
    intro d _ hlt
    unfold Service.firstActiveLoop
    have : Time.After d.GetTime endD.GetTime = true := by
      simp only [Time.After, decide_eq_true_eq]; omega
    rw [if_pos this]; rfl
  | succ n ih =>
    intro d hd hlt
    unfold Service.firstActiveLoop
    split
    · rfl
    · rename_i hafter
      have hle : d.GetTime ≤ endD.GetTime := by
        simp only [Time.After, decide_eq_true_eq] at hafter; omega
      rw [hs d hd hle]
      simp only [Bool.false_eq_true, if_false]
      have := offset_one_time_ge d (by omega)
      exact ih _ (by omega) (by omega)

/-- When no `Date` value of the window is active, the backward scan from any
start in the window ends with `notFound`. -/
theorem lastActiveLoop_none (s : Service) (start endD : Date)
    (hstart : minDate.GetTime < start.GetTime)
    (hs : ∀ x : Date, start.GetTime ≤ x.GetTime → x.GetTime ≤ endD.GetTime →
      s.IsActiveOn x = false) :
    ∀ (n : Nat) (d : Date), d.GetTime ≤ endD.GetTime → d.GetTime - start.GetTime < n →
      Service.lastActiveLoop s start (n + 1) d = some notFound := by
  intro n
  induction n with
  | zero =>
    intro d _ hlt
    unfold Service.lastActiveLoop
    have : Time.Before d.GetTime start.GetTime = true := by
      simp only [Time.Before, decide_eq_true_eq]; omega
    rw [if_pos this]; rfl
  | succ n ih =>
    intro d hd hlt
    unfold Service.lastActiveLoop
    split
    · rfl
    · rename_i hbefore
      have hle : start.GetTime ≤ d.GetTime := by
        simp only [Time.Before, decide_eq_true_eq] at hbefore; omega
      rw [hs d hle hd]
      simp only [Bool.false_eq_true, if_false]
      have := offset_neg_one_time_le d (by omega)
      exact ih _ (by omega) (by omega)

theorem GetFirstActiveDate_short (fuel : Nat) (ord : RangeOrder) (s : Service)
    (hf : RangeOrder.Fair ord) (h : s.Exceptions.length ≤ 1) :
    s.GetFirstActiveDate fuel ord = s.GetFirstActiveDate fuel storedOrder := by
  unfold Service.GetFirstActiveDate
  rw [ranged_short _ ord 0 hf h, ranged_short _ ord 1 hf h]
  rfl

theorem GetLastActiveDate_short (fuel : Nat) (ord : RangeOrder) (s : Service)
    (hf : RangeOrder.Fair ord) (h : s.Exceptions.length ≤ 1) :
    s.GetLastActiveDate fuel ord = s.GetLastActiveDate fuel storedOrder := by
  unfold Service.GetLastActiveDate
  rw [ranged_short _ ord 0 hf h, ranged_short _ ord 1 hf h]
  rfl

/-! ## The claims -/

/-- C1 (counterexample).  `Equals` returns true on two services that differ on
2024-05-31: the first has an unset `Start_date`, which `GetFirstDefinedDate`
leaves out of the window once there is an exception, while `IsActiveOn` takes
it for a date long past.  It also returns true on two services made of valid
dates only that differ on the `Date` value `Date{31, 4, 2024}`, which the scan
never visits.  Both hold in every order of enumeration. -/
theorem C1_counterexample :
    ((∀ ord : RangeOrder, RangeOrder.Fair ord →
        Service.Equals 4 ord (heapOf exUnsetStart exSetStart) 0 1 = some true) ∧
      exUnsetStart.IsActiveOn ⟨31, 5, 2024⟩ = true ∧
      exSetStart.IsActiveOn ⟨31, 5, 2024⟩ = false) ∧
    ((∀ ord : RangeOrder, RangeOrder.Fair ord →
        Service.Equals 4 ord (heapOf exMayOff exMayNone) 0 1 = some true) ∧
      exMayOff.WellFormed ∧ exMayNone.WellFormed ∧
      exMayOff.IsActiveOn ⟨31, 4, 2024⟩ = true ∧
      exMayNone.IsActiveOn ⟨31, 4, 2024⟩ = false) := by
  refine ⟨⟨?_, by decide, by decide⟩, ⟨?_, by decide, by decide, by decide, by decide⟩⟩
  · intro ord hf
    rw [Equals_short _ _ _ _ _ hf (by decide) (by decide)]
    decide
  · intro ord hf
    rw [Equals_short _ _ _ _ _ hf (by decide) (by decide)]
    decide

/-- C1 (amended).  Soundness of `Service.Equals` on well-formed services: when
`a.Equals(b)` returns true, in whatever order its `range` loops enumerate the
exceptions, `a` and `b` are active on the same valid calendar dates, also
outside both date ranges and outside both defined windows. -/
theorem C1_equals_sound (fuel : Nat) (ord : RangeOrder) (heap : Nat → Service) (p q : Nat)
    (hf : RangeOrder.Fair ord) (ha : (heap p).WellFormed) (hb : (heap q).WellFormed)
    (h : Service.Equals fuel ord heap p q = some true) (d : Date) (hd : d.Valid) :
    (heap p).IsActiveOn d = (heap q).IsActiveOn d := by
  by_cases hpq : p = q
  · rw [hpq]
  · rw [Equals_keysDistinct fuel ord heap p q hf (WellFormed_keysDistinct _ ha)
      (WellFormed_keysDistinct _ hb), Equals_of_ne fuel storedOrder heap p q hpq] at h
    split at h
    · simp at h
    · split at h
      · simp at h
      · have hsv : (Service.windowStart storedOrder (heap p) (heap q)).Valid := by
          rcases windowStart_cases storedOrder (heap p) (heap q) with e | e <;> rw [e]
          · exact WellFormed_first_valid _ ha
          · exact WellFormed_first_valid _ hb
        have hs := equalsLoop_sound _ _ _ fuel _ hsv h d hd
        rw [windowStart_time, windowEnd_time] at hs
        simp only [ranged_storedOrder] at hs
        by_cases hin : min (heap p).GetFirstDefinedDate.GetTime (heap q).GetFirstDefinedDate.GetTime
            ≤ d.GetTime ∧ d.GetTime ≤
              max (heap p).GetLastDefinedDate.GetTime (heap q).GetLastDefinedDate.GetTime
        · exact hs hin.1 hin.2
        · have h1 : (heap p).IsActiveOn d = false :=
            WellFormed_inactive_outside _ ha d (by omega)
          have h2 : (heap q).IsActiveOn d = false :=
            WellFormed_inactive_outside _ hb d (by omega)
          rw [h1, h2]

/-- C1 (witness).  A Monday-to-Friday week and the same five days given as
exceptions, enumerated in reverse: `Equals` returns true and both are inactive
on Saturday 2024-01-06. -/
theorem C1_equals_sound_witness :
    RangeOrder.Fair reverseOrder ∧
      (heapOf exWeek exWeekDates 0).WellFormed ∧ (heapOf exWeek exWeekDates 1).WellFormed ∧
      Service.Equals 8 reverseOrder (heapOf exWeek exWeekDates) 0 1 = some true ∧
      (Date.mk 6 1 2024).Valid ∧
      (heapOf exWeek exWeekDates 0).IsActiveOn ⟨6, 1, 2024⟩
        = (heapOf exWeek exWeekDates 1).IsActiveOn ⟨6, 1, 2024⟩ :=
  ⟨reverseOrder_fair, by decide, by decide, by decide, by decide,
    C1_equals_sound 8 reverseOrder (heapOf exWeek exWeekDates) 0 1 reverseOrder_fair (by decide)
      (by decide) (by decide) ⟨6, 1, 2024⟩ (by decide)⟩

/-- C2 (the code at the failing input).  A service without weekdays and a
service whose only exception forces a day inactive are both well-formed and
both active on no date at all, yet `Equals` returns false, in every order of
enumeration and without a single loop iteration: the first defined date of the
second lies after the last defined date of the first. -/
theorem C2_equals_false_on_never_active :
    exEmptyJan.WellFormed ∧ exOffOnly.WellFormed ∧
      (∀ d : Date, exEmptyJan.IsActiveOn d = exOffOnly.IsActiveOn d) ∧
      ∀ ord : RangeOrder, RangeOrder.Fair ord → ∀ fuel : Nat,
        Service.Equals fuel ord (heapOf exEmptyJan exOffOnly) 0 1 = some false := by
  refine ⟨by decide, by decide, ?_, ?_⟩
  · intro d
    rw [IsEmpty_inactive exEmptyJan (by decide) d, IsActiveOn_eq]
    by_cases hd : (⟨1, 3, 2025⟩ : Date) = d
    · simp [exOffOnly, mapGet, hd]
    · simp [exOffOnly, mapGet, hd, noDays]
  · intro ord hf fuel
    rw [Equals_short _ _ _ _ _ hf (by decide) (by decide),
      Equals_of_ne _ _ _ _ _ (by decide), if_neg (by decide), if_pos (by decide)]

/-- C3 (counterexample).  With an exception on `Date{31, 4, 2024}` in one
service and on 2024-05-01 (the same day) in the other, the scan starts on the
receiver's own key: `a.Equals(b)` is false and `b.Equals(a)` is true, in every
order of enumeration.  And with the exception keys 0000-01-01 and 2024-05-01
in `a` and none in `b`, the first defined date of `a` is 2024-05-01 when the
`range` loop meets the year-0 key first and 2024-06-01 when it meets it last:
`a.Equals(b)` is false in the stored order and `b.Equals(a)` is true in the
reverse order, as is `a.Equals(b)` itself. -/
theorem C3_counterexample :
    ((∀ ord : RangeOrder, RangeOrder.Fair ord →
        Service.Equals 4 ord (heapOf exApril31 exMay1) 0 1 = some false) ∧
      (∀ ord : RangeOrder, RangeOrder.Fair ord →
        Service.Equals 4 ord (heapOf exApril31 exMay1) 1 0 = some true)) ∧
    (RangeOrder.Fair storedOrder ∧ RangeOrder.Fair reverseOrder ∧
      Service.Equals 8 storedOrder (heapOf exZeroKeyJune exJuneDays) 0 1 = some false ∧
      Service.Equals 8 reverseOrder (heapOf exZeroKeyJune exJuneDays) 1 0 = some true ∧
      Service.Equals 8 reverseOrder (heapOf exZeroKeyJune exJuneDays) 0 1 = some true) := by
  refine ⟨⟨?_, ?_⟩, ⟨storedOrder_fair, reverseOrder_fair, by decide, by decide, by decide⟩⟩
  · intro ord hf
    rw [Equals_short _ _ _ _ _ hf (by decide) (by decide)]
    decide
  · intro ord hf
    rw [Equals_short _ _ _ _ _ hf (by decide) (by decide)]
    decide

/-- C3 (amended).  Symmetry of `Service.Equals`: for all pairs of services
whose exception keys have a nonzero year and fall on pairwise different days,
and whose first defined dates, if they fall on the same day, are the same
`Date` value (valid calendar dates always are), `a.Equals(b) == b.Equals(a)`:
the two calls give the same result, or both give none, for every number of
loop iterations allowed and whatever the orders in which the `range` loops of
the one call and of the other enumerate the exceptions. -/
theorem C3_equals_symm (fuel : Nat) (ord ord2 : RangeOrder) (heap : Nat → Service) (p q : Nat)
    (hf : RangeOrder.Fair ord) (hf2 : RangeOrder.Fair ord2)
    (kp : (heap p).KeysDistinct) (kq : (heap q).KeysDistinct)
    (h : (heap p).GetFirstDefinedDate.GetTime = (heap q).GetFirstDefinedDate.GetTime →
      (heap p).GetFirstDefinedDate = (heap q).GetFirstDefinedDate) :
    Service.Equals fuel ord heap p q = Service.Equals fuel ord2 heap q p := by
  rw [Equals_keysDistinct fuel ord heap p q hf kp kq,
    Equals_keysDistinct fuel ord2 heap q p hf2 kq kp]
  by_cases hpq : p = q
  · rw [hpq]
  · rw [Equals_of_ne fuel storedOrder heap p q hpq,
      Equals_of_ne fuel storedOrder heap q p (Ne.symm hpq)]
    simp only [ranged_storedOrder]
    by_cases c1 : Time.After (heap p).GetFirstDefinedDate.GetTime
        (heap q).GetLastDefinedDate.GetTime = true
    · simp [c1]
    · rw [if_neg c1]
      by_cases c2 : Time.After (heap q).GetFirstDefinedDate.GetTime
          (heap p).GetLastDefinedDate.GetTime = true
      · rw [if_pos c2, if_pos c2]
      · rw [if_neg c2, if_neg c2, if_neg c1]
        have he : (Service.windowEnd storedOrder (heap p) (heap q)).GetTime
            = (Service.windowEnd storedOrder (heap q) (heap p)).GetTime := by
          rw [windowEnd_time, windowEnd_time]; simp only [ranged_storedOrder]; omega
        have hs : Service.windowStart storedOrder (heap p) (heap q)
            = Service.windowStart storedOrder (heap q) (heap p) := by
          unfold Service.windowStart Time.After
          simp only [ranged_storedOrder]
          by_cases g1 : (heap p).GetFirstDefinedDate.GetTime > (heap q).GetFirstDefinedDate.GetTime
          · have g2 : ¬ (heap q).GetFirstDefinedDate.GetTime
                > (heap p).GetFirstDefinedDate.GetTime := by omega
            simp only [g1, g2, decide_True, decide_False, if_true, Bool.false_eq_true, if_false]
          · by_cases g2 : (heap q).GetFirstDefinedDate.GetTime
                > (heap p).GetFirstDefinedDate.GetTime
            · simp only [g1, g2, decide_True, decide_False, if_true, Bool.false_eq_true, if_false]
            · simp only [g1, g2, decide_False, Bool.false_eq_true, if_false]
              exact h (by omega)
        rw [hs, equalsLoop_end _ _ _ _ he, equalsLoop_symm]

/-- C3 (witness).  The Monday-to-Friday week against the same days given as
exceptions, with eight loop iterations allowed; the one call enumerates in the
stored order and the other in reverse. -/
theorem C3_equals_symm_witness :
    RangeOrder.Fair storedOrder ∧ RangeOrder.Fair reverseOrder ∧
      (heapOf exWeek exWeekDates 0).KeysDistinct ∧ (heapOf exWeek exWeekDates 1).KeysDistinct ∧
      ((heapOf exWeek exWeekDates 0).GetFirstDefinedDate.GetTime
          = (heapOf exWeek exWeekDates 1).GetFirstDefinedDate.GetTime →
        (heapOf exWeek exWeekDates 0).GetFirstDefinedDate
          = (heapOf exWeek exWeekDates 1).GetFirstDefinedDate) ∧
      Service.Equals 8 storedOrder (heapOf exWeek exWeekDates) 0 1
        = Service.Equals 8 reverseOrder (heapOf exWeek exWeekDates) 1 0 :=
  ⟨storedOrder_fair, reverseOrder_fair, by decide, by decide, by decide,
    C3_equals_symm 8 storedOrder reverseOrder (heapOf exWeek exWeekDates) 0 1 storedOrder_fair
      reverseOrder_fair (by decide) (by decide) (by decide)⟩

/-- C4.  Reflexivity of `Service.Equals`: for the service at any address `c`,
whatever its fields (empty, or `Start_date` after `End_date`), `c.Equals(c)`
returns true, by the pointer shortcut and without a single loop iteration. -/
theorem C4_equals_refl (fuel : Nat) (ord : RangeOrder) (heap : Nat → Service) (c : Nat) :
    Service.Equals fuel ord heap c c = some true := by
  simp [Service.Equals]

/-- C5 (the code at the failing input).  Two distinct empty services, one for
January 2024 and one for January 2025: `Equals` returns false, in every order
of enumeration and without a single loop iteration. -/
theorem C5_equals_false_on_empty :
    exEmptyJan.IsEmpty = true ∧ exEmpty2025.IsEmpty = true ∧
      (∀ d : Date, exEmptyJan.IsActiveOn d = exEmpty2025.IsActiveOn d) ∧
      ∀ ord : RangeOrder, RangeOrder.Fair ord → ∀ fuel : Nat,
        Service.Equals fuel ord (heapOf exEmptyJan exEmpty2025) 0 1 = some false := by
  refine ⟨by decide, by decide, ?_, ?_⟩
  · intro d
    rw [IsEmpty_inactive exEmptyJan (by decide) d, IsEmpty_inactive exEmpty2025 (by decide) d]
  · intro ord hf fuel
    rw [Equals_short _ _ _ _ _ hf (by decide) (by decide),
      Equals_of_ne _ _ _ _ _ (by decide), if_neg (by decide), if_pos (by decide)]

/-- C6 (counterexample).  Services running 2024-06-01..05 and 2024-06-03..05
pass both overlap checks and agree on every date from the later first defined
date (06-03) to the later last defined date (06-05), yet `Equals` returns
false: the scan starts at the earlier first defined date, 2024-06-01. -/
theorem C6_counterexample :
    Time.After exFromJune1.GetFirstDefinedDate.GetTime exFromJune3.GetLastDefinedDate.GetTime
        = false ∧
      Time.After exFromJune3.GetFirstDefinedDate.GetTime exFromJune1.GetLastDefinedDate.GetTime
        = false ∧
      (∀ d : Date,
        max exFromJune1.GetFirstDefinedDate.GetTime exFromJune3.GetFirstDefinedDate.GetTime
            ≤ d.GetTime →
          d.GetTime
            ≤ max exFromJune1.GetLastDefinedDate.GetTime exFromJune3.GetLastDefinedDate.GetTime →
          exFromJune1.IsActiveOn d = exFromJune3.IsActiveOn d) ∧
      ∀ ord : RangeOrder, RangeOrder.Fair ord → ∀ fuel : Nat,
        Service.Equals (fuel + 1) ord (heapOf exFromJune1 exFromJune3) 0 1 = some false := by
  refine ⟨by decide, by decide, ?_, ?_⟩
  · intro d h1 h2
    have f1 : exFromJune1.GetFirstDefinedDate.GetTime = 739037 := by decide
    have f3 : exFromJune3.GetFirstDefinedDate.GetTime = 739039 := by decide
    have l1 : exFromJune1.GetLastDefinedDate.GetTime = 739041 := by decide
    have l3 : exFromJune3.GetLastDefinedDate.GetTime = 739041 := by decide
    have s1 : exFromJune1.Start_date.GetTime = 739037 := by decide
    have s3 : exFromJune3.Start_date.GetTime = 739039 := by decide
    have e1 : exFromJune1.End_date.GetTime = 739041 := by decide
    have e3 : exFromJune3.End_date.GetTime = 739041 := by decide
    rw [f1, f3] at h1
    rw [l1, l3] at h2
    rw [IsActiveOn_no_exception exFromJune1 d rfl, IsActiveOn_no_exception exFromJune3 d rfl,
      s1, s3, e1, e3]
    have a1 : decide ((739037 : Int) ≤ d.GetTime) = true := by
      simp only [decide_eq_true_eq]; omega
    have a3 : decide ((739039 : Int) ≤ d.GetTime) = true := by
      simp only [decide_eq_true_eq]; omega
    rw [a1, a3]
    rfl
  · intro ord hf fuel
    rw [Equals_short _ _ _ _ _ hf (by decide) (by decide),
      Equals_of_ne _ _ _ _ _ (by decide), if_neg (by decide), if_neg (by decide)]
    unfold Service.equalsLoop
    rw [if_neg (by decide), if_pos (by decide)]

/-- C6 (amended).  Comparison window of `Service.Equals`: for two distinct
services that pass both overlap checks, whose first defined dates are valid
calendar dates and whose last defined dates are before 32767-12-31,
`a.Equals(b)` returns, and it returns true exactly when `a` and `b` agree on
every valid calendar date from the earlier of the two first defined dates to
the later of the two last defined dates, inclusive.  The defined dates are
those the call computes, in whatever order its `range` loops enumerate. -/
theorem C6_equals_window (ord : RangeOrder) (heap : Nat → Service) (p q : Nat) (hpq : p ≠ q)
    (h1 : Time.After ((heap p).ranged ord 0).GetFirstDefinedDate.GetTime
      ((heap q).ranged ord 1).GetLastDefinedDate.GetTime = false)
    (h2 : Time.After ((heap q).ranged ord 2).GetFirstDefinedDate.GetTime
      ((heap p).ranged ord 3).GetLastDefinedDate.GetTime = false)
    (va : ((heap p).ranged ord 0).GetFirstDefinedDate.Valid)
    (vb : ((heap q).ranged ord 2).GetFirstDefinedDate.Valid)
    (h3 : ((heap p).ranged ord 3).GetLastDefinedDate.GetTime < maxDate.GetTime)
    (h4 : ((heap q).ranged ord 1).GetLastDefinedDate.GetTime < maxDate.GetTime) :
    ∃ (fuel : Nat) (r : Bool), Service.Equals fuel ord heap p q = some r ∧
      (r = true ↔ ∀ d : Date, d.Valid →
        min ((heap p).ranged ord 0).GetFirstDefinedDate.GetTime
          ((heap q).ranged ord 2).GetFirstDefinedDate.GetTime ≤ d.GetTime →
        d.GetTime ≤ max ((heap p).ranged ord 3).GetLastDefinedDate.GetTime
          ((heap q).ranged ord 1).GetLastDefinedDate.GetTime →
        (heap p).IsActiveOn d = (heap q).IsActiveOn d) := by
  have hend : (Service.windowEnd ord (heap p) (heap q)).GetTime < maxDate.GetTime := by
    rw [windowEnd_time]; omega
  have hsv : (Service.windowStart ord (heap p) (heap q)).Valid := by
    rcases windowStart_cases ord (heap p) (heap q) with e | e <;> rw [e]
    · exact va
    · exact vb
  let n := ((Service.windowEnd ord (heap p) (heap q)).GetTime
    - (Service.windowStart ord (heap p) (heap q)).GetTime + 1).toNat
  obtain ⟨r, hr, hiff⟩ := equalsLoop_total (heap p) (heap q) _ hend n _ hsv (by omega)
  refine ⟨n + 1, r, ?_, ?_⟩
  · rw [Equals_of_ne _ ord heap p q hpq, h1, h2]
    exact hr
  · rw [windowStart_time, windowEnd_time] at hiff
    exact hiff

/-- C6 (witness).  The Monday-to-Friday week against the same days given as
exceptions, enumerated in reverse. -/
theorem C6_equals_window_witness :
    (0 : Nat) ≠ 1 ∧
      Time.After ((heapOf exWeek exWeekDates 0).ranged reverseOrder 0).GetFirstDefinedDate.GetTime
        ((heapOf exWeek exWeekDates 1).ranged reverseOrder 1).GetLastDefinedDate.GetTime
        = false ∧
      Time.After ((heapOf exWeek exWeekDates 1).ranged reverseOrder 2).GetFirstDefinedDate.GetTime
        ((heapOf exWeek exWeekDates 0).ranged reverseOrder 3).GetLastDefinedDate.GetTime
        = false ∧
      ((heapOf exWeek exWeekDates 0).ranged reverseOrder 0).GetFirstDefinedDate.Valid ∧
      ((heapOf exWeek exWeekDates 1).ranged reverseOrder 2).GetFirstDefinedDate.Valid ∧
      ((heapOf exWeek exWeekDates 0).ranged reverseOrder 3).GetLastDefinedDate.GetTime
        < maxDate.GetTime ∧
      ((heapOf exWeek exWeekDates 1).ranged reverseOrder 1).GetLastDefinedDate.GetTime
        < maxDate.GetTime ∧
      ∃ (fuel : Nat) (r : Bool),
        Service.Equals fuel reverseOrder (heapOf exWeek exWeekDates) 0 1 = some r ∧
        (r = true ↔ ∀ d : Date, d.Valid →
          min ((heapOf exWeek exWeekDates 0).ranged reverseOrder 0).GetFirstDefinedDate.GetTime
            ((heapOf exWeek exWeekDates 1).ranged reverseOrder 2).GetFirstDefinedDate.GetTime
            ≤ d.GetTime →
          d.GetTime
            ≤ max ((heapOf exWeek exWeekDates 0).ranged reverseOrder 3).GetLastDefinedDate.GetTime
              ((heapOf exWeek exWeekDates 1).ranged reverseOrder 1).GetLastDefinedDate.GetTime →
          (heapOf exWeek exWeekDates 0).IsActiveOn d
            = (heapOf exWeek exWeekDates 1).IsActiveOn d) :=
  ⟨by decide, by decide, by decide, by decide, by decide, by decide, by decide,
    C6_equals_window reverseOrder (heapOf exWeek exWeekDates) 0 1 (by decide) (by decide)
      (by decide) (by decide) (by decide) (by decide) (by decide)⟩

/-- C7.  Reference definition of `Service.IsActiveOn`: for every service `s`
and date `d`, `s.IsActiveOn(d)` is the boolean of the entry of `d` in
`s.Exceptions` when there is one, whatever `Daymap`, `Start_date` and
`End_date` are, and otherwise `Daymap[weekday(d)] && Start_date <= d &&
d <= End_date`, with Go's weekday (Sunday = 0) and the order of the noon-UTC
instants. -/
theorem C7_isActiveOn_reference (s : Service) (d : Date) :
    s.IsActiveOn d = s.IsActiveOn_spec d := by
  unfold Service.IsActiveOn_spec
  exact IsActiveOn_eq s d

/-- C8 (counterexample).  `Date{31, 4, 2024}` moved one day on and one day back
is 2024-05-01, and 32767-12-31 moved 25000 days on (the year wraps to -32700)
and back is 32767-12-30. -/
theorem C8_counterexample :
    ((Date.mk 31 4 2024).GetOffsettedDate 1).GetOffsettedDate (-1) = ⟨1, 5, 2024⟩ ∧
      (Date.mk 31 4 2024).InRange ∧
      (maxDate.GetOffsettedDate 25000).GetOffsettedDate (-25000) = ⟨30, 12, 32767⟩ ∧
      maxDate.Valid := by
  decide

/-- C8 (amended).  Offset inverse: for every valid calendar date `d` and every
`n` such that the day `n` days from `d` lies between -32768-01-01 and
32767-12-31, `d.GetOffsettedDate(n).GetOffsettedDate(-n) == d`. -/
theorem C8_offset_inverse (d : Date) (n : Int) (hv : d.Valid)
    (h0 : minDate.GetTime ≤ d.GetTime + n) (h1 : d.GetTime + n ≤ maxDate.GetTime) :
    (d.GetOffsettedDate n).GetOffsettedDate (-n) = d := by
  obtain ⟨ev, et⟩ := GetOffsettedDate_valid d n hv h0 h1
  obtain ⟨r0, r1⟩ := Valid_time_range d hv
  obtain ⟨bv, bt⟩ := GetOffsettedDate_valid (d.GetOffsettedDate n) (-n) ev (by omega) (by omega)
  exact Valid_GetTime_inj _ _ bv hv (by omega)

/-- C8 (witness).  2024-02-28 moved two days on, over the leap day, and back. -/
theorem C8_offset_inverse_witness :
    (Date.mk 28 2 2024).Valid ∧ minDate.GetTime ≤ (Date.mk 28 2 2024).GetTime + 2 ∧
      (Date.mk 28 2 2024).GetTime + 2 ≤ maxDate.GetTime ∧
      ((Date.mk 28 2 2024).GetOffsettedDate 2).GetOffsettedDate (-2) = ⟨28, 2, 2024⟩ :=
  ⟨by decide, by decide, by decide,
    C8_offset_inverse ⟨28, 2, 2024⟩ 2 (by decide) (by decide) (by decide)⟩

/-- C9 (counterexample).  32767-12-31 is a Sunday; seven days on, the year
wraps and the result, -32768-01-07, is a Wednesday. -/
theorem C9_counterexample :
    Time.Weekday maxDate.GetTime = 0 ∧ maxDate.GetOffsettedDate 7 = ⟨7, 1, -32768⟩ ∧
      Time.Weekday (maxDate.GetOffsettedDate 7).GetTime = 3 := by
  decide

/-- C9 (amended).  Weekday consistency: for every `Date` value `d` such that
the day seven days from `d` lies between -32768-01-01 and 32767-12-31 (the
year of the result does not wrap), the weekday of `d.GetOffsettedDate(7)`
equals the weekday of `d`. -/
theorem C9_weekday_offset_seven (d : Date) (h0 : minDate.GetTime ≤ d.GetTime + 7)
    (h1 : d.GetTime + 7 ≤ maxDate.GetTime) :
    Time.Weekday (d.GetOffsettedDate 7).GetTime = Time.Weekday d.GetTime := by
  rw [GetOffsettedDate_general d 7 (by omega)]
  obtain ⟨y0, y1⟩ := year_of_range _ h0 h1
  rw [(GetGtfsDateFromTime_valid _ y0 y1).2]
  exact Weekday_add_seven _

/-- C9 (witness).  The unset date `Date{0, 0, 0}`, which falls on -0001-11-30. -/
theorem C9_weekday_offset_seven_witness :
    minDate.GetTime ≤ (Date.mk 0 0 0).GetTime + 7 ∧
      (Date.mk 0 0 0).GetTime + 7 ≤ maxDate.GetTime ∧
      Time.Weekday ((Date.mk 0 0 0).GetOffsettedDate 7).GetTime
        = Time.Weekday (Date.mk 0 0 0).GetTime :=
  ⟨by decide, by decide, C9_weekday_offset_seven ⟨0, 0, 0⟩ (by decide) (by decide)⟩

/-- C10 (counterexample).  With a `Start_date` in year -5 (set: its year is
nonzero) and one exception on 2024-06-01, `GetFirstDefinedDate` returns
2024-06-01, which is after `Start_date`.  With exception keys 0000-01-01 and
0005-01-01, enumerated in that order, it returns 0005-01-01, which is after
the first key. -/
theorem C10_counterexample :
    (exNegStart.Start_date.Year ≠ 0 ∧ exNegStart.GetFirstDefinedDate = ⟨1, 6, 2024⟩ ∧
      exNegStart.Start_date.GetTime < exNegStart.GetFirstDefinedDate.GetTime) ∧
    (exZeroKey.GetFirstDefinedDate = ⟨1, 1, 5⟩ ∧
      (Date.mk 1 1 0).GetTime < exZeroKey.GetFirstDefinedDate.GetTime) := by
  decide

/-- C10 (amended).  Boundary discovery, for every service whose exception keys
have a nonzero year.  Without exceptions `GetFirstDefinedDate` returns
`Start_date` and `GetLastDefinedDate` returns `End_date` (the unset
`Date{0,0,0}` when they are unset).  With exceptions `GetFirstDefinedDate`
returns a minimum, in date order, of the exception keys together with
`Start_date` when `Start_date.Year` is positive: it is one of them and is not
after any of them; `GetLastDefinedDate` symmetrically returns a maximum of the
exception keys together with `End_date` when `End_date.Year` is positive. -/
theorem C10_boundary_discovery (s : Service) (hk : ∀ e ∈ s.Exceptions, e.1.Year ≠ 0) :
    (s.Exceptions = [] →
      s.GetFirstDefinedDate = s.Start_date ∧ s.GetLastDefinedDate = s.End_date) ∧
    (s.Exceptions ≠ [] →
      (((∃ e ∈ s.Exceptions, e.1 = s.GetFirstDefinedDate) ∨
          (0 < s.Start_date.Year ∧ s.GetFirstDefinedDate = s.Start_date)) ∧
        (∀ e ∈ s.Exceptions, s.GetFirstDefinedDate.GetTime ≤ e.1.GetTime) ∧
        (0 < s.Start_date.Year → s.GetFirstDefinedDate.GetTime ≤ s.Start_date.GetTime)) ∧
      (((∃ e ∈ s.Exceptions, e.1 = s.GetLastDefinedDate) ∨
          (0 < s.End_date.Year ∧ s.GetLastDefinedDate = s.End_date)) ∧
        (∀ e ∈ s.Exceptions, e.1.GetTime ≤ s.GetLastDefinedDate.GetTime) ∧
        (0 < s.End_date.Year → s.End_date.GetTime ≤ s.GetLastDefinedDate.GetTime))) :=
  ⟨fun h => ⟨GetFirstDefinedDate_nil s h, GetLastDefinedDate_nil s h⟩,
    fun h => ⟨GetFirstDefinedDate_spec s h hk, GetLastDefinedDate_spec s h hk⟩⟩

/-- C10 (witness).  January 2024 with exceptions on 2024-01-06 and 2024-01-08:
the first defined date is `Start_date` and the last is `End_date`. -/
theorem C10_boundary_discovery_witness :
    (∀ e ∈ exJanuary.Exceptions, e.1.Year ≠ 0) ∧
      exJanuary.GetFirstDefinedDate = ⟨1, 1, 2024⟩ ∧
      exJanuary.GetLastDefinedDate = ⟨31, 1, 2024⟩ ∧
      (∀ e ∈ exJanuary.Exceptions, exJanuary.GetFirstDefinedDate.GetTime ≤ e.1.GetTime) ∧
      (∀ e ∈ exJanuary.Exceptions, e.1.GetTime ≤ exJanuary.GetLastDefinedDate.GetTime) :=
  ⟨by decide, by decide, by decide,
    ((C10_boundary_discovery exJanuary (by decide)).2 (by decide)).1.2.1,
    ((C10_boundary_discovery exJanuary (by decide)).2 (by decide)).2.2.1⟩

/-! ## The claims on the remaining operations -/

/-- C11 (counterexample).  The `Date` value `Date{31, 4, 2024}` lies in the
defined window 2024-04-30 .. 2024-05-02 of `exApril31Window` and is active by
its exception, but the scan visits 2024-05-01 in its place and
`GetFirstActiveDate` returns `Date{-1,-1,-1}`.  On an empty service whose
window ends on 32767-12-31 `GetFirstActiveDate` does not return at all.  And
when the first defined date is the `Date` value `Date{31, 4, 2024}`, the scan
goes from it to 2024-05-02 and returns that date, although the service is
active on 2024-05-01, a valid calendar date of the window.  All three hold in
every order of enumeration. -/
theorem C11_counterexample :
    (exApril31Window.GetFirstDefinedDate.GetTime ≤ (Date.mk 31 4 2024).GetTime ∧
      (Date.mk 31 4 2024).GetTime ≤ exApril31Window.GetLastDefinedDate.GetTime ∧
      exApril31Window.IsActiveOn ⟨31, 4, 2024⟩ = true ∧
      ∀ ord : RangeOrder, RangeOrder.Fair ord →
        exApril31Window.GetFirstActiveDate 4 ord = some ⟨-1, -1, -1⟩) ∧
    (exLastDays.IsEmpty = true ∧
      ∀ ord : RangeOrder, RangeOrder.Fair ord → ∀ fuel : Nat,
        exLastDays.GetFirstActiveDate fuel ord = none) ∧
    (exApril31Start.GetFirstDefinedDate = ⟨31, 4, 2024⟩ ∧ (Date.mk 1 5 2024).Valid ∧
      exApril31Start.GetFirstDefinedDate.GetTime ≤ (Date.mk 1 5 2024).GetTime ∧
      (Date.mk 1 5 2024).GetTime ≤ exApril31Start.GetLastDefinedDate.GetTime ∧
      exApril31Start.IsActiveOn ⟨1, 5, 2024⟩ = true ∧
      ∀ ord : RangeOrder, RangeOrder.Fair ord →
        exApril31Start.GetFirstActiveDate 4 ord = some ⟨2, 5, 2024⟩) := by
  refine ⟨⟨by decide, by decide, by decide, ?_⟩, ⟨by decide, ?_⟩,
    ⟨by decide, by decide, by decide, by decide, by decide, ?_⟩⟩
  · intro ord hf
    rw [GetFirstActiveDate_short _ _ _ hf (by decide)]
    decide
  · intro ord hf fuel
    rw [GetFirstActiveDate_short _ _ _ hf (by decide)]
    exact firstActiveLoop_diverges exLastDays _ (by decide)
      (IsEmpty_inactive exLastDays (by decide)) fuel _ (by decide)
  · intro ord hf
    rw [GetFirstActiveDate_short _ _ _ hf (by decide)]
    decide

/-- C11 (amended).  `Service.GetFirstActiveDate` within the defined window.
Let `F` and `L` be the first and the last defined date that the call computes,
in whatever order its two `range` loops enumerate the exceptions (when the
exception keys have a nonzero year and fall on pairwise different days, they
are `s.GetFirstDefinedDate()` and `s.GetLastDefinedDate()` in every order).
For every service `s` with `L` before 32767-12-31 the call returns, and:
if no `Date` value `d` with `F <= d <= L` is active it returns
`Date{-1,-1,-1}`, in particular for every empty service, whatever its
`Start_date` and `End_date`, unset ones included; if `F` is a valid calendar
date and some valid calendar date `d` with `F <= d <= L` is active it returns
the earliest such date (valid, in the window, active, and no valid date `e`
with `F <= e < d` is active); if `F` is a valid calendar date and no valid
calendar date in `[F, L]` is active it returns `Date{-1,-1,-1}`. -/
theorem C11_firstActive_window (ord : RangeOrder) (s : Service)
    (hL : (s.ranged ord 1).GetLastDefinedDate.GetTime < maxDate.GetTime) :
    ∃ (fuel : Nat) (r : Date), s.GetFirstActiveDate fuel ord = some r ∧
      ((∀ d : Date, (s.ranged ord 0).GetFirstDefinedDate.GetTime ≤ d.GetTime →
          d.GetTime ≤ (s.ranged ord 1).GetLastDefinedDate.GetTime → s.IsActiveOn d = false) →
        r = ⟨-1, -1, -1⟩) ∧
      (s.IsEmpty = true → r = ⟨-1, -1, -1⟩) ∧
      ((s.ranged ord 0).GetFirstDefinedDate.Valid →
        ((∃ d : Date, d.Valid ∧ (s.ranged ord 0).GetFirstDefinedDate.GetTime ≤ d.GetTime ∧
            d.GetTime ≤ (s.ranged ord 1).GetLastDefinedDate.GetTime ∧ s.IsActiveOn d = true) →
          r.Valid ∧ (s.ranged ord 0).GetFirstDefinedDate.GetTime ≤ r.GetTime ∧
            r.GetTime ≤ (s.ranged ord 1).GetLastDefinedDate.GetTime ∧ s.IsActiveOn r = true ∧
            ∀ e : Date, e.Valid → (s.ranged ord 0).GetFirstDefinedDate.GetTime ≤ e.GetTime →
              e.GetTime < r.GetTime → s.IsActiveOn e = false) ∧
        ((∀ d : Date, d.Valid → (s.ranged ord 0).GetFirstDefinedDate.GetTime ≤ d.GetTime →
            d.GetTime ≤ (s.ranged ord 1).GetLastDefinedDate.GetTime → s.IsActiveOn d = false) →
          r = ⟨-1, -1, -1⟩)) ∧
      (RangeOrder.Fair ord → s.KeysDistinct →
        (s.ranged ord 0).GetFirstDefinedDate = s.GetFirstDefinedDate ∧
          (s.ranged ord 1).GetLastDefinedDate = s.GetLastDefinedDate) := by
  let n := ((s.ranged ord 1).GetLastDefinedDate.GetTime
    - (s.ranged ord 0).GetFirstDefinedDate.GetTime + 1).toNat
  have hterm := firstActiveLoop_terminates s _ hL n (s.ranged ord 0).GetFirstDefinedDate
    (by omega)
  obtain ⟨r, hr⟩ := Option.isSome_iff_exists.mp hterm
  have hnone : (∀ d : Date, (s.ranged ord 0).GetFirstDefinedDate.GetTime ≤ d.GetTime →
      d.GetTime ≤ (s.ranged ord 1).GetLastDefinedDate.GetTime → s.IsActiveOn d = false) →
      r = ⟨-1, -1, -1⟩ := by
    intro hall
    have h := firstActiveLoop_none s _ _ hL hall n _ (le_refl _) (by omega)
    rw [h] at hr
    exact (Option.some.inj hr).symm
  refine ⟨n + 1, r, hr, hnone, ?_, ?_, ?_⟩
  · intro he
    exact hnone (fun d _ _ => IsEmpty_inactive s he d)
  · intro hF
    obtain ⟨r2, hr2, hcase⟩ := firstActiveLoop_total s _ hL n _ hF (by omega)
    rw [hr] at hr2
    cases Option.some.inj hr2
    constructor
    · rintro ⟨d, dv, d1, d2, da⟩
      rcases hcase with ⟨_, hall⟩ | h
      · rw [hall d dv d1 d2] at da; simp at da
      · exact h
    · intro hno
      rcases hcase with ⟨e, _⟩ | ⟨rv, r1, r2, ra, _⟩
      · exact e
      · rw [hno r rv r1 r2] at ra; simp at ra
  · intro hf hk
    exact ⟨ranged_first s ord 0 hf hk, ranged_last s ord 1 hf hk⟩

/-- C11 (witness).  The empty service with unset dates: the call returns
`Date{-1,-1,-1}`.  And January 2024 on weekdays with two exceptions, enumerated
in reverse: the window is 2024-01-01 .. 2024-01-31 and the call returns
2024-01-01. -/
theorem C11_firstActive_window_witness :
    ((exEmptyUnset.ranged storedOrder 1).GetLastDefinedDate.GetTime < maxDate.GetTime ∧
      exEmptyUnset.IsEmpty = true ∧
      ∃ fuel : Nat, exEmptyUnset.GetFirstActiveDate fuel storedOrder = some ⟨-1, -1, -1⟩) ∧
    ((exJanuary.ranged reverseOrder 1).GetLastDefinedDate.GetTime < maxDate.GetTime ∧
      (exJanuary.ranged reverseOrder 0).GetFirstDefinedDate.Valid ∧
      ∃ (fuel : Nat) (r : Date), exJanuary.GetFirstActiveDate fuel reverseOrder = some r ∧
        r.Valid ∧ exJanuary.IsActiveOn r = true ∧
        ∀ e : Date, e.Valid →
          (exJanuary.ranged reverseOrder 0).GetFirstDefinedDate.GetTime ≤ e.GetTime →
          e.GetTime < r.GetTime → exJanuary.IsActiveOn e = false) := by
  refine ⟨⟨by decide, by decide, ?_⟩, ⟨by decide, by decide, ?_⟩⟩
  · obtain ⟨fuel, r, hr, _, he, _⟩ := C11_firstActive_window storedOrder exEmptyUnset (by decide)
    exact ⟨fuel, by rw [hr, he (by decide)]⟩
  · obtain ⟨fuel, r, hr, _, _, hv, _⟩ :=
      C11_firstActive_window reverseOrder exJanuary (by decide)
    obtain ⟨rv, _, _, ra, hmin⟩ :=
      (hv (by decide)).1 ⟨⟨1, 1, 2024⟩, by decide, by decide, by decide, by decide⟩
    exact ⟨fuel, r, hr, rv, ra, hmin⟩

/-- C12 (counterexample).  With an unset `Start_date`, `End_date` 2024-06-03,
every weekday set and 2024-06-01 forced inactive, `GetFirstActiveDate` returns
2024-06-02 although the service is active on the earlier date 2024-05-31.  And
a well-formed service that is active on the `Date` value `Date{31, 4, 2024}`
gets `Date{-1,-1,-1}`.  Both hold in every order of enumeration. -/
theorem C12_counterexample :
    ((∀ ord : RangeOrder, RangeOrder.Fair ord →
        exUnsetStart.GetFirstActiveDate 4 ord = some ⟨2, 6, 2024⟩) ∧
      exUnsetStart.IsActiveOn ⟨31, 5, 2024⟩ = true ∧
      (Date.mk 31 5 2024).GetTime < (Date.mk 2 6 2024).GetTime) ∧
    (exMayOff.WellFormed ∧ exMayOff.IsActiveOn ⟨31, 4, 2024⟩ = true ∧
      ∀ ord : RangeOrder, RangeOrder.Fair ord →
        exMayOff.GetFirstActiveDate 4 ord = some ⟨-1, -1, -1⟩) := by
  refine ⟨⟨?_, by decide, by decide⟩, ⟨by decide, by decide, ?_⟩⟩
  · intro ord hf
    rw [GetFirstActiveDate_short _ _ _ hf (by decide)]
    decide
  · intro ord hf
    rw [GetFirstActiveDate_short _ _ _ hf (by decide)]
    decide

/-- C12 (amended).  For every well-formed service `s` whose last defined date
is before 32767-12-31 and that is active on at least one valid calendar date,
`s.GetFirstActiveDate()` returns, in whatever order its `range` loops
enumerate the exceptions, a valid calendar date `d` with
`s.IsActiveOn(d) == true` such that `s.IsActiveOn(e) == false` for every valid
calendar date `e` earlier than `d`, inside the defined window or not. -/
theorem C12_firstActive_overall (ord : RangeOrder) (s : Service) (hf : RangeOrder.Fair ord)
    (hw : s.WellFormed) (hL : s.GetLastDefinedDate.GetTime < maxDate.GetTime)
    (hact : ∃ d : Date, d.Valid ∧ s.IsActiveOn d = true) :
    ∃ (fuel : Nat) (r : Date), s.GetFirstActiveDate fuel ord = some r ∧ r.Valid ∧
      s.IsActiveOn r = true ∧
      ∀ e : Date, e.Valid → e.GetTime < r.GetTime → s.IsActiveOn e = false := by
  have e0 := ranged_first s ord 0 hf (WellFormed_keysDistinct s hw)
  have e1 := ranged_last s ord 1 hf (WellFormed_keysDistinct s hw)
  let n := (s.GetLastDefinedDate.GetTime - s.GetFirstDefinedDate.GetTime + 1).toNat
  obtain ⟨r, hr, hcase⟩ :=
    firstActiveLoop_total s _ hL n _ (WellFormed_first_valid s hw) (by omega)
  obtain ⟨d, dv, da⟩ := hact
  have hin : s.GetFirstDefinedDate.GetTime ≤ d.GetTime ∧
      d.GetTime ≤ s.GetLastDefinedDate.GetTime := by
    by_contra hc
    rw [WellFormed_inactive_outside s hw d (by omega)] at da
    simp at da
  rcases hcase with ⟨_, hall⟩ | ⟨rv, r1, r2, ra, hall⟩
  · rw [hall d dv hin.1 hin.2] at da; simp at da
  · refine ⟨n + 1, r, ?_, rv, ra, ?_⟩
    · unfold Service.GetFirstActiveDate
      simp only [e0, e1]
      exact hr
    · intro e ev her
      by_cases hef : s.GetFirstDefinedDate.GetTime ≤ e.GetTime
      · exact hall e ev hef her
      · exact WellFormed_inactive_outside s hw e (by omega)

/-- C12 (witness).  January 2024 on weekdays with two exceptions, enumerated
in reverse; it is active on Tuesday 2024-01-02. -/
theorem C12_firstActive_overall_witness :
    RangeOrder.Fair reverseOrder ∧ exJanuary.WellFormed ∧
      exJanuary.GetLastDefinedDate.GetTime < maxDate.GetTime ∧
      (∃ d : Date, d.Valid ∧ exJanuary.IsActiveOn d = true) ∧
      ∃ (fuel : Nat) (r : Date), exJanuary.GetFirstActiveDate fuel reverseOrder = some r ∧
        r.Valid ∧ exJanuary.IsActiveOn r = true ∧
        ∀ e : Date, e.Valid → e.GetTime < r.GetTime → exJanuary.IsActiveOn e = false :=
  ⟨reverseOrder_fair, by decide, by decide, ⟨⟨2, 1, 2024⟩, by decide, by decide⟩,
    C12_firstActive_overall reverseOrder exJanuary reverseOrder_fair (by decide) (by decide)
      ⟨⟨2, 1, 2024⟩, by decide, by decide⟩⟩

/-- C13 (counterexample).  The `Date` value `Date{31, 4, 2024}` lies in the
defined window 2024-04-30 .. 2024-05-02 of `exApril31Window` and is active by
its exception, but the backward scan visits 2024-05-01 in its place and
`GetLastActiveDate` returns `Date{-1,-1,-1}`.  On an empty service whose
window starts on -32768-01-01 `GetLastActiveDate` does not return at all.
When the last defined date is the `Date` value `Date{31, 4, 2024}`, the scan
goes from it to 2024-04-30 and returns that date, although the service is
active on 2024-05-01, a valid calendar date of the window.  These three hold
in every order of enumeration.  And the single exception on 0000-03-15, a
valid calendar date whose year is the value that stands for an unset date,
gives `Date{-1,-1,-1}` from both functions. -/
theorem C13_counterexample :
    (exApril31Window.GetFirstDefinedDate.GetTime ≤ (Date.mk 31 4 2024).GetTime ∧
      (Date.mk 31 4 2024).GetTime ≤ exApril31Window.GetLastDefinedDate.GetTime ∧
      exApril31Window.IsActiveOn ⟨31, 4, 2024⟩ = true ∧
      ∀ ord : RangeOrder, RangeOrder.Fair ord →
        exApril31Window.GetLastActiveDate 4 ord = some ⟨-1, -1, -1⟩) ∧
    (exFirstDays.IsEmpty = true ∧
      ∀ ord : RangeOrder, RangeOrder.Fair ord → ∀ fuel : Nat,
        exFirstDays.GetLastActiveDate fuel ord = none) ∧
    (exApril31End.GetLastDefinedDate = ⟨31, 4, 2024⟩ ∧ (Date.mk 1 5 2024).Valid ∧
      exApril31End.GetFirstDefinedDate.GetTime ≤ (Date.mk 1 5 2024).GetTime ∧
      (Date.mk 1 5 2024).GetTime ≤ exApril31End.GetLastDefinedDate.GetTime ∧
      exApril31End.IsActiveOn ⟨1, 5, 2024⟩ = true ∧
      ∀ ord : RangeOrder, RangeOrder.Fair ord →
        exApril31End.GetLastActiveDate 4 ord = some ⟨30, 4, 2024⟩) ∧
    ((Date.mk 15 3 0).Valid ∧ exYearZero.IsActiveOn ⟨15, 3, 0⟩ = true ∧
      ∀ ord : RangeOrder, RangeOrder.Fair ord →
        exYearZero.GetFirstActiveDate 2 ord = some ⟨-1, -1, -1⟩ ∧
          exYearZero.GetLastActiveDate 2 ord = some ⟨-1, -1, -1⟩) := by
  refine ⟨⟨by decide, by decide, by decide, ?_⟩, ⟨by decide, ?_⟩,
    ⟨by decide, by decide, by decide, by decide, by decide, ?_⟩, ⟨by decide, by decide, ?_⟩⟩
  · intro ord hf
    rw [GetLastActiveDate_short _ _ _ hf (by decide)]
    decide
  · intro ord hf fuel
    rw [GetLastActiveDate_short _ _ _ hf (by decide)]
    exact lastActiveLoop_diverges exFirstDays _ (by decide)
      (IsEmpty_inactive exFirstDays (by decide)) fuel _ (by decide)
  · intro ord hf
    rw [GetLastActiveDate_short _ _ _ hf (by decide)]
    decide
  · intro ord hf
    rw [GetFirstActiveDate_short _ _ _ hf (by decide),
      GetLastActiveDate_short _ _ _ hf (by decide)]
    decide

/-- C13 (amended).  `Service.GetLastActiveDate` is the mirror of
`GetFirstActiveDate`.  Let `F` and `L` be the first and the last defined date
that the call computes, in whatever order its two `range` loops enumerate the
exceptions (when the exception keys have a nonzero year and fall on pairwise
different days, they are `s.GetFirstDefinedDate()` and
`s.GetLastDefinedDate()` in every order).  For every service `s` with `F`
after -32768-01-01 the call returns, and: if no `Date` value `d` with
`F <= d <= L` is active it returns `Date{-1,-1,-1}`, in particular for every
empty service, unset dates included; if `L` is a valid calendar date it
returns the latest valid calendar date `d` in `[F, L]` with
`s.IsActiveOn(d)`, or `Date{-1,-1,-1}` if there is none.  And for every date
`x` with a set (nonzero) year, a service with unset `Start_date` and
`End_date` and the single exception forcing `x` active has
`GetFirstActiveDate() == x` and `GetLastActiveDate() == x`, in every order of
enumeration. -/
theorem C13_lastActive (ord : RangeOrder) (s : Service) (x : Date) :
    (minDate.GetTime < (s.ranged ord 0).GetFirstDefinedDate.GetTime →
      ∃ (fuel : Nat) (r : Date), s.GetLastActiveDate fuel ord = some r ∧
        ((∀ d : Date, (s.ranged ord 0).GetFirstDefinedDate.GetTime ≤ d.GetTime →
            d.GetTime ≤ (s.ranged ord 1).GetLastDefinedDate.GetTime → s.IsActiveOn d = false) →
          r = ⟨-1, -1, -1⟩) ∧
        (s.IsEmpty = true → r = ⟨-1, -1, -1⟩) ∧
        ((s.ranged ord 1).GetLastDefinedDate.Valid →
          ((∃ d : Date, d.Valid ∧ (s.ranged ord 0).GetFirstDefinedDate.GetTime ≤ d.GetTime ∧
              d.GetTime ≤ (s.ranged ord 1).GetLastDefinedDate.GetTime ∧
              s.IsActiveOn d = true) →
            r.Valid ∧ (s.ranged ord 0).GetFirstDefinedDate.GetTime ≤ r.GetTime ∧
              r.GetTime ≤ (s.ranged ord 1).GetLastDefinedDate.GetTime ∧
              s.IsActiveOn r = true ∧
              ∀ e : Date, e.Valid → r.GetTime < e.GetTime →
                e.GetTime ≤ (s.ranged ord 1).GetLastDefinedDate.GetTime →
                s.IsActiveOn e = false) ∧
          ((∀ d : Date, d.Valid → (s.ranged ord 0).GetFirstDefinedDate.GetTime ≤ d.GetTime →
              d.GetTime ≤ (s.ranged ord 1).GetLastDefinedDate.GetTime →
              s.IsActiveOn d = false) →
            r = ⟨-1, -1, -1⟩)) ∧
        (RangeOrder.Fair ord → s.KeysDistinct →
          (s.ranged ord 0).GetFirstDefinedDate = s.GetFirstDefinedDate ∧
            (s.ranged ord 1).GetLastDefinedDate = s.GetLastDefinedDate)) ∧
    (RangeOrder.Fair ord → s.Exceptions = [(x, true)] → s.Start_date = ⟨0, 0, 0⟩ →
      s.End_date = ⟨0, 0, 0⟩ → x.Year ≠ 0 →
      ∀ fuel : Nat, s.GetFirstActiveDate (fuel + 1) ord = some x ∧
        s.GetLastActiveDate (fuel + 1) ord = some x) := by
  constructor
  · intro hF
    let n := ((s.ranged ord 1).GetLastDefinedDate.GetTime
      - (s.ranged ord 0).GetFirstDefinedDate.GetTime + 1).toNat
    have hterm := lastActiveLoop_terminates s _ hF n (s.ranged ord 1).GetLastDefinedDate
      (by omega)
    obtain ⟨r, hr⟩ := Option.isSome_iff_exists.mp hterm
    have hnone : (∀ d : Date, (s.ranged ord 0).GetFirstDefinedDate.GetTime ≤ d.GetTime →
        d.GetTime ≤ (s.ranged ord 1).GetLastDefinedDate.GetTime → s.IsActiveOn d = false) →
        r = ⟨-1, -1, -1⟩ := by
      intro hall
      have h := lastActiveLoop_none s _ _ hF hall n _ (le_refl _) (by omega)
      rw [h] at hr
      exact (Option.some.inj hr).symm
    refine ⟨n + 1, r, hr, hnone, ?_, ?_, ?_⟩
    · intro he
      exact hnone (fun d _ _ => IsEmpty_inactive s he d)
    · intro hL
      obtain ⟨r2, hr2, hcase⟩ := lastActiveLoop_total s _ hF n _ hL (by omega)
      rw [hr] at hr2
      cases Option.some.inj hr2
      constructor
      · rintro ⟨d, dv, d1, d2, da⟩
        rcases hcase with ⟨_, hall⟩ | h
        · rw [hall d dv d1 d2] at da; simp at da
        · exact h
      · intro hno
        rcases hcase with ⟨e, _⟩ | ⟨rv, r1, r2, ra, _⟩
        · exact e
        · rw [hno r rv r1 r2] at ra; simp at ra
    · intro hf hk
      exact ⟨ranged_first s ord 0 hf hk, ranged_last s ord 1 hf hk⟩
  · intro hf he hs hend hx fuel
    have hlen : s.Exceptions.length ≤ 1 := by rw [he]; simp
    have hF : s.GetFirstDefinedDate = x := by
      simp [Service.GetFirstDefinedDate, he, hs, firstStep, hx]
    have hLx : s.GetLastDefinedDate = x := by
      simp [Service.GetLastDefinedDate, he, hend, lastStep, hx]
    have ha : s.IsActiveOn x = true := by
      rw [IsActiveOn_eq, he]; simp [mapGet]
    rw [GetFirstActiveDate_short _ _ _ hf hlen, GetLastActiveDate_short _ _ _ hf hlen]
    constructor
    · unfold Service.GetFirstActiveDate
      simp only [ranged_storedOrder, hF, hLx]
      unfold Service.firstActiveLoop
      rw [if_neg (by simp [Time.After]), if_pos ha]
    · unfold Service.GetLastActiveDate
      simp only [ranged_storedOrder, hF, hLx]
      unfold Service.lastActiveLoop
      rw [if_neg (by simp [Time.Before]), if_pos ha]

/-- C13 (witness).  January 2024 on weekdays with two exceptions, enumerated
in reverse: the call returns a valid active date with no later active date in
the window.  The empty service with unset dates: the call returns
`Date{-1,-1,-1}`.  And the service of the specification's scenario, with the
single exception that forces 2024-03-15 active. -/
theorem C13_lastActive_witness :
    (minDate.GetTime < (exJanuary.ranged reverseOrder 0).GetFirstDefinedDate.GetTime ∧
      (exJanuary.ranged reverseOrder 1).GetLastDefinedDate.Valid ∧
      ∃ (fuel : Nat) (r : Date), exJanuary.GetLastActiveDate fuel reverseOrder = some r ∧
        r.Valid ∧ exJanuary.IsActiveOn r = true ∧
        ∀ e : Date, e.Valid → r.GetTime < e.GetTime →
          e.GetTime ≤ (exJanuary.ranged reverseOrder 1).GetLastDefinedDate.GetTime →
          exJanuary.IsActiveOn e = false) ∧
    (minDate.GetTime < (exEmptyUnset.ranged storedOrder 0).GetFirstDefinedDate.GetTime ∧
      exEmptyUnset.IsEmpty = true ∧
      ∃ fuel : Nat, exEmptyUnset.GetLastActiveDate fuel storedOrder = some ⟨-1, -1, -1⟩) ∧
    (RangeOrder.Fair reverseOrder ∧
      exMarch15.Exceptions = [(⟨15, 3, 2024⟩, true)] ∧ exMarch15.Start_date = ⟨0, 0, 0⟩ ∧
      exMarch15.End_date = ⟨0, 0, 0⟩ ∧ (Date.mk 15 3 2024).Year ≠ 0 ∧
      exMarch15.GetFirstActiveDate 1 reverseOrder = some ⟨15, 3, 2024⟩ ∧
      exMarch15.GetLastActiveDate 1 reverseOrder = some ⟨15, 3, 2024⟩) := by
  refine ⟨⟨by decide, by decide, ?_⟩, ⟨by decide, by decide, ?_⟩,
    ⟨reverseOrder_fair, rfl, rfl, rfl, by decide,
      (C13_lastActive reverseOrder exMarch15 ⟨15, 3, 2024⟩).2 reverseOrder_fair rfl rfl rfl
        (by decide) 0⟩⟩
  · obtain ⟨fuel, r, hr, _, _, hv, _⟩ :=
      (C13_lastActive reverseOrder exJanuary ⟨0, 0, 0⟩).1 (by decide)
    obtain ⟨rv, _, _, ra, hmax⟩ :=
      (hv (by decide)).1 ⟨⟨31, 1, 2024⟩, by decide, by decide, by decide, by decide⟩
    exact ⟨fuel, r, hr, rv, ra, hmax⟩
  · obtain ⟨fuel, r, hr, _, he, _⟩ :=
      (C13_lastActive storedOrder exEmptyUnset ⟨0, 0, 0⟩).1 (by decide)
    exact ⟨fuel, by rw [hr, he (by decide)]⟩

/-- C14.  An empty service matches no date: for every service `s`,
`s.IsEmpty()` is true exactly when all seven `Daymap` entries are false and
`s.Exceptions` has no entries, and for every such `s` and every `Date` `d`,
`s.IsActiveOn(d) == false`, whatever `Start_date` and `End_date` are. -/
theorem C14_isEmpty (s : Service) :
    (s.IsEmpty = true ↔ ((∀ i : Fin 7, s.Daymap i = false) ∧ s.Exceptions.length = 0)) ∧
      (s.IsEmpty = true → ∀ d : Date, s.IsActiveOn d = false) := by
  refine ⟨?_, fun h d => IsEmpty_inactive s h d⟩
  rw [IsEmpty_iff, List.length_eq_zero]

/-- C14 (witness).  The empty service for January 2024 on 2024-01-02. -/
theorem C14_isEmpty_witness :
    exEmptyJan.IsEmpty = true ∧ exEmptyJan.IsActiveOn ⟨2, 1, 2024⟩ = false :=
  ⟨by decide, (C14_isEmpty exEmptyJan).2 (by decide) ⟨2, 1, 2024⟩⟩

/-- C15.  Exception set/get round trip and frame: for every service `s` (its
exception table initialised), date `d` and type `t` in {1, 2}, after
`s.SetExceptionTypeOn(d, t)` we have `s.GetExceptionTypeOn(d) == t`,
`s.GetExceptionTypeOn(e)` is unchanged for every date `e != d`, and `Id`,
`Daymap`, `Start_date`, `End_date` are unchanged; for every other `t`
(0 included) `SetExceptionTypeOn` leaves the whole service unchanged, so an
existing exception on `d` is not removed. -/
theorem C15_setException (s : Service) (d : Date) (t : Int) :
    ((t = 1 ∨ t = 2) →
      (s.SetExceptionTypeOn d t).GetExceptionTypeOn d = t ∧
      (∀ e : Date, e ≠ d →
        (s.SetExceptionTypeOn d t).GetExceptionTypeOn e = s.GetExceptionTypeOn e) ∧
      (s.SetExceptionTypeOn d t).Id = s.Id ∧ (s.SetExceptionTypeOn d t).Daymap = s.Daymap ∧
      (s.SetExceptionTypeOn d t).Start_date = s.Start_date ∧
      (s.SetExceptionTypeOn d t).End_date = s.End_date) ∧
    (¬ (t = 1 ∨ t = 2) → s.SetExceptionTypeOn d t = s) := by
  constructor
  · intro ht
    rcases ht with rfl | rfl
    · refine ⟨?_, ?_, rfl, rfl, rfl, rfl⟩
      · simp [Service.SetExceptionTypeOn, Service.GetExceptionTypeOn, mapGet_mapSet_same]
      · intro e he
        simp [Service.SetExceptionTypeOn, Service.GetExceptionTypeOn,
          mapGet_mapSet_other _ _ _ _ he]
    · refine ⟨?_, ?_, rfl, rfl, rfl, rfl⟩
      · simp [Service.SetExceptionTypeOn, Service.GetExceptionTypeOn, mapGet_mapSet_same]
      · intro e he
        simp [Service.SetExceptionTypeOn, Service.GetExceptionTypeOn,
          mapGet_mapSet_other _ _ _ _ he]
  · intro ht
    have h1 : ¬ t = 1 := fun h => ht (Or.inl h)
    have h2 : ¬ t = 2 := fun h => ht (Or.inr h)
    simp [Service.SetExceptionTypeOn, h1, h2]

/-- C15 (witness).  On `exJanuary`: forcing 2024-01-10 active, and a call with
type 0 on 2024-01-06, which keeps its forced-active exception. -/
theorem C15_setException_witness :
    (exJanuary.SetExceptionTypeOn ⟨10, 1, 2024⟩ 1).GetExceptionTypeOn ⟨10, 1, 2024⟩ = 1 ∧
      exJanuary.SetExceptionTypeOn ⟨6, 1, 2024⟩ 0 = exJanuary ∧
      exJanuary.GetExceptionTypeOn ⟨6, 1, 2024⟩ = 1 :=
  ⟨((C15_setException exJanuary ⟨10, 1, 2024⟩ 1).1 (Or.inl rfl)).1,
    (C15_setException exJanuary ⟨6, 1, 2024⟩ 0).2 (by decide), by decide⟩

/-- C16 (the code at the failing input).  The string `-F-F-F` has six bytes,
three of them the sign `-` and not hexadecimal digits; `hexToRGB` returns no
error for it, and the channels it returns are -15/255, below the normalized
range. -/
theorem C16_hexToRGB_accepts_sign :
    signedHex.length = 6 ∧ signedHex.all isHexDigit = false ∧
      (hexToRGB signedHex).err = false ∧
      (hexToRGB signedHex).r = ((-15 : Int) : ℚ) / 255 ∧
      (hexToRGB signedHex).g = ((-15 : Int) : ℚ) / 255 ∧
      (hexToRGB signedHex).b = ((-15 : Int) : ℚ) / 255 ∧
      (hexToRGB signedHex).r < 0 := by
  rw [hexToRGB_signedHex]
  refine ⟨by decide, by decide, rfl, rfl, rfl, rfl, ?_⟩
  norm_num

/-- C17 (counterexample).  On `Date{5, 13, 2024}` with offset 1 the shortcut
yields `Date{6, 13, 2024}` and the general path 2025-01-06. -/
theorem C17_counterexample :
    (Date.mk 5 13 2024).InRange ∧
      (Date.mk 5 13 2024).GetOffsettedDate 1 = (Date.mk 5 13 2024).offsetShortcut 1 ∧
      (Date.mk 5 13 2024).offsetShortcut 1 = ⟨6, 13, 2024⟩ ∧
      (Date.mk 5 13 2024).offsetGeneral 1 = ⟨6, 1, 2025⟩ := by
  decide

/-- C17 (amended).  The fast path of `Date.GetOffsettedDate` equals the general
path: for every `Date` `d` and offset in {1, -1} on which the shortcut is taken
(`1 < d.Day < 27`), with `d.Month` in `1 .. 12` and every `int16` year, the
shortcut result `Date{d.Day + offset, d.Month, d.Year}` equals the general-path
result `GetGtfsDateFromTime(d.GetTime().AddDate(0, 0, offset))`. -/
theorem C17_shortcut_eq_general (d : Date) (offset : Int) (ho : offset = 1 ∨ offset = -1)
    (hd : 1 < d.Day ∧ d.Day < 27) (hm : 1 ≤ d.Month ∧ d.Month ≤ 12)
    (hy : -32768 ≤ d.Year ∧ d.Year ≤ 32767) :
    d.GetOffsettedDate offset = d.offsetShortcut offset ∧
      d.offsetShortcut offset = ⟨d.Day + offset, d.Month, d.Year⟩ ∧
      d.offsetShortcut offset = d.offsetGeneral offset := by
  have hs : (offset = 1 ∨ offset = -1) ∧ d.Day > 1 ∧ d.Day < 27 := ⟨ho, hd.1, hd.2⟩
  have hdi := daysIn_ge (isLeap d.Year) d.Month hm.1 hm.2
  have hv : d.Valid := ⟨⟨hm.1, hm.2, by omega, by omega⟩, hy.1, hy.2⟩
  have e1 : d.GetOffsettedDate offset = d.offsetShortcut offset := by
    unfold Date.GetOffsettedDate Date.offsetShortcut
    rw [if_pos hs]
  have e2 : d.offsetShortcut offset = ⟨d.Day + offset, d.Month, d.Year⟩ := by
    rw [← e1]; exact GetOffsettedDate_shortcut d offset hs
  refine ⟨e1, e2, ?_⟩
  have hv2 : (Date.mk (d.Day + offset) d.Month d.Year).Valid :=
    Valid_setDay d _ hv (by omega) (by omega)
  rw [e2]
  unfold Date.offsetGeneral
  rw [AddDate_days, ← GetTime_setDay d offset]
  exact (GetGtfsDateFromTime_GetTime _ hv2).symm

/-- C17 (witness).  2024-02-26 with offset -1. -/
theorem C17_shortcut_eq_general_witness :
    ((-1 : Int) = 1 ∨ (-1 : Int) = -1) ∧ (1 < (Date.mk 26 2 2024).Day ∧ (Date.mk 26 2 2024).Day < 27) ∧
      (Date.mk 26 2 2024).offsetShortcut (-1) = ⟨25, 2, 2024⟩ ∧
      (Date.mk 26 2 2024).offsetShortcut (-1) = (Date.mk 26 2 2024).offsetGeneral (-1) :=
  ⟨by decide, by decide,
    (C17_shortcut_eq_general ⟨26, 2, 2024⟩ (-1) (by decide) (by decide) (by decide)
      (by decide)).2.1,
    (C17_shortcut_eq_general ⟨26, 2, 2024⟩ (-1) (by decide) (by decide) (by decide)
      (by decide)).2.2⟩

/-- C18 (counterexample).  On the empty service for 32767-12-30 .. 32767-12-31
the step after 32767-12-31 wraps to -32768-01-01, which is not after the end:
`GetFirstActiveDate` does not return, and neither does `Equals` against a copy
of the service at another address.  On the empty service for
-32768-01-01 .. -32768-01-02 the step before -32768-01-01 wraps to 32767-12-31
and `GetLastActiveDate` does not return.  All three hold in every order of
enumeration. -/
theorem C18_counterexample :
    maxDate.GetOffsettedDate 1 = minDate ∧ minDate.GetOffsettedDate (-1) = maxDate ∧
      (∀ ord : RangeOrder, RangeOrder.Fair ord → ∀ fuel : Nat,
        exLastDays.GetFirstActiveDate fuel ord = none) ∧
      (∀ ord : RangeOrder, RangeOrder.Fair ord → ∀ fuel : Nat,
        Service.Equals fuel ord (fun _ => exLastDays) 0 1 = none) ∧
      (∀ ord : RangeOrder, RangeOrder.Fair ord → ∀ fuel : Nat,
        exFirstDays.GetLastActiveDate fuel ord = none) := by
  refine ⟨by decide, by decide, ?_, ?_, ?_⟩
  · intro ord hf fuel
    rw [GetFirstActiveDate_short _ _ _ hf (by decide)]
    exact firstActiveLoop_diverges exLastDays _ (by decide)
      (IsEmpty_inactive exLastDays (by decide)) fuel _ (by decide)
  · intro ord hf fuel
    rw [Equals_short _ _ _ _ _ hf (by decide) (by decide),
      Equals_of_ne _ _ _ _ _ (by decide), if_neg (by decide), if_neg (by decide)]
    exact equalsLoop_diverges exLastDays exLastDays _ (by decide) (fun _ => rfl) fuel _
      (by decide)
  · intro ord hf fuel
    rw [GetLastActiveDate_short _ _ _ hf (by decide)]
    exact lastActiveLoop_diverges exFirstDays _ (by decide)
      (IsEmpty_inactive exFirstDays (by decide)) fuel _ (by decide)

/-- C18 (amended).  The day-by-day scans terminate when the window keeps clear
of the `int16` year limits, in whatever order the `range` loops of the call
enumerate the exceptions; the defined dates below are those the call computes.
For every pair of services, if the later of the two last defined dates is
before 32767-12-31 then `Equals` returns within `days + 2` loop tests, `days`
being the number of days from the start to the end of its window; for every
service whose last defined date is before 32767-12-31 `GetFirstActiveDate`
returns within `days + 2` loop tests; and for every service whose first
defined date is after -32768-01-01 `GetLastActiveDate` returns within
`days + 2` loop tests. -/
theorem C18_scans_terminate (ord : RangeOrder) (heap : Nat → Service) (p q : Nat)
    (s : Service) :
    (((heap p).ranged ord 3).GetLastDefinedDate.GetTime < maxDate.GetTime →
      ((heap q).ranged ord 1).GetLastDefinedDate.GetTime < maxDate.GetTime →
      (Service.Equals
        (((Service.windowEnd ord (heap p) (heap q)).GetTime
          - (Service.windowStart ord (heap p) (heap q)).GetTime).toNat + 2) ord heap p q).isSome
        = true) ∧
    ((s.ranged ord 1).GetLastDefinedDate.GetTime < maxDate.GetTime →
      (s.GetFirstActiveDate
        (((s.ranged ord 1).GetLastDefinedDate.GetTime
          - (s.ranged ord 0).GetFirstDefinedDate.GetTime).toNat + 2) ord).isSome
        = true) ∧
    (minDate.GetTime < (s.ranged ord 0).GetFirstDefinedDate.GetTime →
      (s.GetLastActiveDate
        (((s.ranged ord 1).GetLastDefinedDate.GetTime
          - (s.ranged ord 0).GetFirstDefinedDate.GetTime).toNat + 2) ord).isSome
        = true) := by
  refine ⟨?_, ?_, ?_⟩
  · intro h3 h4
    by_cases hpq : p = q
    · simp [Service.Equals, hpq]
    · rw [Equals_of_ne _ ord heap p q hpq]
      split
      · rfl
      · split
        · rfl
        · exact equalsLoop_terminates _ _ _ (by rw [windowEnd_time]; omega) _ _ (by omega)
  · intro h
    exact firstActiveLoop_terminates s _ h _ _ (by omega)
  · intro h
    exact lastActiveLoop_terminates s _ h _ _ (by omega)

/-- C18 (witness).  `exJanuary` against the Monday-to-Friday week, enumerated
in reverse. -/
theorem C18_scans_terminate_witness :
    ((heapOf exJanuary exWeek 0).ranged reverseOrder 3).GetLastDefinedDate.GetTime
        < maxDate.GetTime ∧
      ((heapOf exJanuary exWeek 1).ranged reverseOrder 1).GetLastDefinedDate.GetTime
        < maxDate.GetTime ∧
      (exJanuary.ranged reverseOrder 1).GetLastDefinedDate.GetTime < maxDate.GetTime ∧
      minDate.GetTime < (exJanuary.ranged reverseOrder 0).GetFirstDefinedDate.GetTime ∧
      (Service.Equals
        (((Service.windowEnd reverseOrder (heapOf exJanuary exWeek 0)
            (heapOf exJanuary exWeek 1)).GetTime
          - (Service.windowStart reverseOrder (heapOf exJanuary exWeek 0)
              (heapOf exJanuary exWeek 1)).GetTime).toNat + 2)
        reverseOrder (heapOf exJanuary exWeek) 0 1).isSome = true ∧
      (exJanuary.GetFirstActiveDate
        (((exJanuary.ranged reverseOrder 1).GetLastDefinedDate.GetTime
          - (exJanuary.ranged reverseOrder 0).GetFirstDefinedDate.GetTime).toNat + 2)
        reverseOrder).isSome = true ∧
      (exJanuary.GetLastActiveDate
        (((exJanuary.ranged reverseOrder 1).GetLastDefinedDate.GetTime
          - (exJanuary.ranged reverseOrder 0).GetFirstDefinedDate.GetTime).toNat + 2)
        reverseOrder).isSome = true :=
  ⟨by decide, by decide, by decide, by decide,
    (C18_scans_terminate reverseOrder (heapOf exJanuary exWeek) 0 1 exJanuary).1 (by decide)
      (by decide),
    (C18_scans_terminate reverseOrder (heapOf exJanuary exWeek) 0 1 exJanuary).2.1 (by decide),
    (C18_scans_terminate reverseOrder (heapOf exJanuary exWeek) 0 1 exJanuary).2.2 (by decide)⟩

/-- C19 (counterexample).  The exception keys 0000-01-01 and 0005-01-01
enumerated in this order give the first defined date 0005-01-01; enumerated in
the other order they give the unset `Date{0,0,0}`. -/
theorem C19_counterexample :
    exZeroKey.Exceptions.Perm exZeroKeyRev.Exceptions ∧
      exZeroKeyRev.Start_date = exZeroKey.Start_date ∧
      exZeroKeyRev.End_date = exZeroKey.End_date ∧
      exZeroKey.GetFirstDefinedDate = ⟨1, 1, 5⟩ ∧
      exZeroKeyRev.GetFirstDefinedDate = ⟨0, 0, 0⟩ := by
  refine ⟨List.Perm.swap _ _ _, by decide, by decide, by decide, by decide⟩

/-- C19 (amended).  Determinism of boundary discovery under map iteration
order: for every service `s` whose exception keys have a nonzero year and fall
on pairwise different days (as distinct valid calendar dates do), the results
of `GetFirstDefinedDate` and `GetLastDefinedDate` are the same for every order
in which the entries of `s.Exceptions` are enumerated. -/
theorem C19_boundary_order (s : Service) (l2 : List (Date × Bool))
    (hp : s.Exceptions.Perm l2) (hk : ∀ e ∈ s.Exceptions, e.1.Year ≠ 0)
    (hinj : ∀ e ∈ s.Exceptions, ∀ f ∈ s.Exceptions, e.1.GetTime = f.1.GetTime → e.1 = f.1) :
    (Service.mk s.Id s.Daymap s.Start_date s.End_date l2).GetFirstDefinedDate
        = s.GetFirstDefinedDate ∧
      (Service.mk s.Id s.Daymap s.Start_date s.End_date l2).GetLastDefinedDate
        = s.GetLastDefinedDate := by
  unfold Service.GetFirstDefinedDate Service.GetLastDefinedDate
  simp only
  rw [← firstLoop_perm _ _ hp hk hinj, ← lastLoop_perm _ _ hp hk hinj]
  exact ⟨rfl, rfl⟩

/-- C19 (witness).  `exJanuary` with its two exceptions in the other order. -/
theorem C19_boundary_order_witness :
    exJanuary.Exceptions.Perm [(⟨8, 1, 2024⟩, false), (⟨6, 1, 2024⟩, true)] ∧
      (∀ e ∈ exJanuary.Exceptions, e.1.Year ≠ 0) ∧
      (∀ e ∈ exJanuary.Exceptions, ∀ f ∈ exJanuary.Exceptions,
        e.1.GetTime = f.1.GetTime → e.1 = f.1) ∧
      (Service.mk exJanuary.Id exJanuary.Daymap exJanuary.Start_date exJanuary.End_date
          [(⟨8, 1, 2024⟩, false), (⟨6, 1, 2024⟩, true)]).GetFirstDefinedDate
        = exJanuary.GetFirstDefinedDate ∧
      (Service.mk exJanuary.Id exJanuary.Daymap exJanuary.Start_date exJanuary.End_date
          [(⟨8, 1, 2024⟩, false), (⟨6, 1, 2024⟩, true)]).GetLastDefinedDate
        = exJanuary.GetLastDefinedDate :=
  ⟨List.Perm.swap _ _ _, by decide, by decide,
    C19_boundary_order exJanuary _ (List.Perm.swap _ _ _) (by decide) (by decide)⟩

/-- C20 (the code at the failing input).  A service with `Start_date`
2024-02-01 after `End_date` 2024-01-01 and no exception, and a second
`Service` value with the same fields at another address: the pointer shortcut
returns true for the service against itself, and the first overlap check
returns false for the service against its copy, in every order of enumeration
and without a single loop iteration.  And for a service with the exception
keys 0000-01-01 and 2024-05-01 against a copy of it, `Equals` returns true
when the `range` loops enumerate in the stored order and false when they
enumerate in reverse. -/
theorem C20_equals_false_on_copy :
    (Time.After exInverted.GetFirstDefinedDate.GetTime exInverted.GetLastDefinedDate.GetTime
        = true ∧
      (∀ ord : RangeOrder, ∀ fuel : Nat,
        Service.Equals fuel ord (fun _ => exInverted) 0 0 = some true) ∧
      ∀ ord : RangeOrder, RangeOrder.Fair ord → ∀ fuel : Nat,
        Service.Equals fuel ord (fun _ => exInverted) 0 1 = some false) ∧
    (RangeOrder.Fair storedOrder ∧ RangeOrder.Fair reverseOrder ∧
      Service.Equals 4 storedOrder (fun _ => exZeroKeyInverted) 0 1 = some true ∧
      ∀ fuel : Nat, Service.Equals fuel reverseOrder (fun _ => exZeroKeyInverted) 0 1
        = some false) := by
  refine ⟨⟨by decide, ?_, ?_⟩, ⟨storedOrder_fair, reverseOrder_fair, by decide, ?_⟩⟩
  · intro ord fuel
    simp [Service.Equals]
  · intro ord hf fuel
    rw [Equals_short _ _ _ _ _ hf (by decide) (by decide),
      Equals_of_ne _ _ _ _ _ (by decide), if_pos (by decide)]
  · intro fuel
    rw [Equals_of_ne _ _ _ _ _ (by decide), if_pos (by decide)]

end Gtfs
